import Mathlib

/-!
Verification of the CP-SAT timetabling model-construction layer.

The development shallowly embeds the model builder (`solver/model_builder.py`),
the availability encoder (`solver/constraints/availability.py`), the room
suitability encoder (`solver/constraints/rooms.py`), the daily/weekly limit
encoder (`solver/constraints/daily_limits.py`) and the solve driver.

Decision variables of the CP-SAT model are identified by their name strings
(exactly the names the Python code generates); a candidate solution is a
valuation assigning an integer to every name.  Each constraint the code posts
is represented by a node of a small constraint syntax whose satisfaction by a
valuation is a computable boolean, so an "accepted solution" is a valuation
under which every posted constraint holds.
-/

namespace Timetable

/-- A candidate solution: a value for every named CP-SAT variable. -/
abbrev Valuation := String → Int

/-- Minutes in a day (`MINUTES_PER_DAY` in `model_builder.py`). -/
def minutesPerDay : Int := 1440

-- ===========================================================================
-- Data model (solver/data/models.py), fields the core layer reads
-- ===========================================================================

/-- An availability window of a teacher, class or room. -/
structure Availability where
  day : Int
  start_minutes : Int
  end_minutes : Int
  available : Bool
  deriving DecidableEq

/-- Teacher entity (fields consumed by the model-construction layer). -/
structure Teacher where
  id : String
  name : String
  availability : List Availability
  max_periods_per_day : Option Int
  max_periods_per_week : Option Int
  preferred_rooms : List String
  deriving DecidableEq

/-- Student class entity. -/
structure StudentClass where
  id : String
  name : String
  student_count : Option Int
  availability : List Availability
  deriving DecidableEq

/-- Subject entity; the room type is the enum value string. -/
structure Subject where
  id : String
  name : String
  requires_specialist_room : Bool
  required_room_type : Option String
  deriving DecidableEq

/-- Room entity. -/
structure Room where
  id : String
  name : String
  type : String
  capacity : Option Int
  availability : List Availability
  equipment : List String
  deriving DecidableEq

/-- Room requirements attached to a lesson. -/
structure RoomRequirement where
  room_type : Option String
  min_capacity : Option Int
  preferred_rooms : List String
  excluded_rooms : List String
  requires_equipment : List String
  deriving DecidableEq

/-- Lesson entity. -/
structure Lesson where
  id : String
  teacher_id : String
  class_id : String
  subject_id : String
  duration_minutes : Int
  lessons_per_week : Nat
  room_requirement : Option RoomRequirement
  deriving DecidableEq

/-- Period of the school day schedule. -/
structure Period where
  id : String
  name : String
  start_minutes : Int
  end_minutes : Int
  day : Int
  is_break : Bool
  is_lunch : Bool
  deriving DecidableEq

/-- School-wide configuration (the core reads only the number of days). -/
structure SchoolConfig where
  num_days : Nat
  deriving DecidableEq

/-- The validated input handed to the model builder. -/
structure TimetableInput where
  config : SchoolConfig
  teachers : List Teacher
  classes : List StudentClass
  subjects : List Subject
  rooms : List Room
  lessons : List Lesson
  periods : List Period
  deriving DecidableEq

/-- Last-match lookup, reproducing lookup in a Python dict built by iterating
a list and writing each element under its id (later entries overwrite). -/
def lastFind? (p : α → Bool) : List α → Option α
  | [] => none
  | x :: xs =>
    match lastFind? p xs with
    | some y => some y
    | none => if p x then some x else none

/-- Embeds `TimetableInput.get_teacher`. -/
def getTeacher (input : TimetableInput) (tid : String) : Option Teacher :=
  lastFind? (fun t => t.id == tid) input.teachers

/-- Embeds `TimetableInput.get_class`. -/
def getClass (input : TimetableInput) (cid : String) : Option StudentClass :=
  lastFind? (fun c => c.id == cid) input.classes

/-- Embeds `TimetableInput.get_subject`. -/
def getSubject (input : TimetableInput) (sid : String) : Option Subject :=
  lastFind? (fun s => s.id == sid) input.subjects

/-- Embeds `TimetableInput.get_lesson`. -/
def getLesson (input : TimetableInput) (lid : String) : Option Lesson :=
  lastFind? (fun l => l.id == lid) input.lessons

/-- Embeds `Period.is_schedulable`: neither a break nor a lunch period. -/
def Period.isSchedulable (p : Period) : Bool :=
  !p.is_break && !p.is_lunch

/-- Embeds `TimetableInput.get_schedulable_periods`. -/
def schedulablePeriods (input : TimetableInput) : List Period :=
  input.periods.filter Period.isSchedulable

/-- Embeds `TimetableInput.get_teacher_lessons`. -/
def getTeacherLessons (input : TimetableInput) (tid : String) : List Lesson :=
  input.lessons.filter (fun l => l.teacher_id == tid)

/-- Embeds `TimetableInput.get_class_lessons`. -/
def getClassLessons (input : TimetableInput) (cid : String) : List Lesson :=
  input.lessons.filter (fun l => l.class_id == cid)

/-- Embeds `day_minutes_to_week_minutes`: absolute week-minute offset of a
day-local time. -/
def dayMinutesToWeekMinutes (day minutes : Int) : Int :=
  day * minutesPerDay + minutes

/-- Total week minutes of the model (`num_days * MINUTES_PER_DAY`). -/
def weekMinutes (input : TimetableInput) : Int :=
  (input.config.num_days : Int) * minutesPerDay

-- ===========================================================================
-- Constraint syntax and satisfaction semantics
-- ===========================================================================

/-- Atomic relations the builder posts over named integer variables. -/
inductive Atom where
  | eqC (v : String) (c : Int)
  | neC (v : String) (c : Int)
  | leC (v : String) (c : Int)
  | geC (v : String) (c : Int)
  | ltC (v : String) (c : Int)
  | gtC (v : String) (c : Int)
  | eqVV (v w : String)
  | neVV (v w : String)
  | eqAddC (v w : String) (c : Int)
  | divEq (d v : String) (m : Int)
  | memOf (v : String) (vals : List Int)
  | eqSumOf (v : String) (vars : List String)
  | maxSubC (t w : String) (c : Int)
  | maxCSub (t : String) (c : Int) (w : String)
  deriving DecidableEq

/-- Truth of an atom under a valuation.  `divEq` is CP-SAT division equality
(integer division rounded toward zero); `maxSubC t w c` is
`AddMaxEquality(t, [w - c, 0])` and `maxCSub t c w` is
`AddMaxEquality(t, [c - w, 0])`. -/
def Atom.holds (σ : Valuation) : Atom → Bool
  | eqC v c => decide (σ v = c)
  | neC v c => decide (σ v ≠ c)
  | leC v c => decide (σ v ≤ c)
  | geC v c => decide (σ v ≥ c)
  | ltC v c => decide (σ v < c)
  | gtC v c => decide (σ v > c)
  | eqVV v w => decide (σ v = σ w)
  | neVV v w => decide (σ v ≠ σ w)
  | eqAddC v w c => decide (σ v = σ w + c)
  | divEq d v m => decide (σ d = Int.tdiv (σ v) m)
  | memOf v vals => decide (σ v ∈ vals)
  | eqSumOf v vars => decide (σ v = (vars.map σ).sum)
  | maxSubC t w c => decide (σ t = max (σ w - c) 0)
  | maxCSub t c w => decide (σ t = max (c - σ w) 0)

/-- A CP-SAT boolean literal: the variable name and its polarity
(`(b, true)` is the variable itself, `(b, false)` is `b.Not()`). -/
abbrev Lit := String × Bool

/-- A positive literal holds when the 0/1 variable is 1, a negated literal
when it is 0. -/
def litHolds (σ : Valuation) (l : Lit) : Bool :=
  match l with
  | (b, true) => decide (σ b = 1)
  | (b, false) => decide (σ b = 0)

/-- An interval construct: start and end variable names, fixed duration, and
an optional presence literal (for `NewOptionalIntervalVar`). -/
structure IntervalD where
  startVar : String
  dur : Int
  endVar : String
  pres : Option Lit
  deriving DecidableEq

/-- Whether an (optional) interval is present under a valuation. -/
def IntervalD.present (σ : Valuation) (iv : IntervalD) : Bool :=
  match iv.pres with
  | none => true
  | some l => litHolds σ l

/-- Pairwise disjointness of the present intervals of a list (the meaning of
`AddNoOverlap`). -/
def intervalsDisjoint (σ : Valuation) : List IntervalD → Bool
  | [] => true
  | iv :: rest =>
    (rest.all (fun jv =>
      !iv.present σ || !jv.present σ ||
      decide (σ iv.endVar ≤ σ jv.startVar) ||
      decide (σ jv.endVar ≤ σ iv.startVar))) &&
    intervalsDisjoint σ rest

/-- One posted CP-SAT constraint.  `impP b a` is `Add(a).OnlyEnforceIf(b)`,
`impN b a` is `Add(a).OnlyEnforceIf(b.Not())`; `boolOrIf`/`boolAndIf` are
`AddBoolOr`/`AddBoolAnd` guarded by `OnlyEnforceIf` on the given literal. -/
inductive Cons where
  | lift (a : Atom)
  | impP (b : String) (a : Atom)
  | impN (b : String) (a : Atom)
  | boolOr (lits : List Lit)
  | boolOrIf (g : Lit) (lits : List Lit)
  | boolAndIf (g : Lit) (lits : List Lit)
  | noOverlap (ivs : List IntervalD)
  deriving DecidableEq

/-- Truth of a posted constraint under a valuation. -/
def Cons.holds (σ : Valuation) : Cons → Bool
  | lift a => a.holds σ
  | impP b a => !decide (σ b = 1) || a.holds σ
  | impN b a => !decide (σ b = 0) || a.holds σ
  | boolOr lits => lits.any (litHolds σ)
  | boolOrIf g lits => !litHolds σ g || lits.any (litHolds σ)
  | boolAndIf g lits => !litHolds σ g || lits.all (litHolds σ)
  | noOverlap ivs => intervalsDisjoint σ ivs

/-- A valuation is an accepted solution of a constraint list when every
posted constraint holds. -/
def satisfies (σ : Valuation) (cs : List Cons) : Bool :=
  cs.all (fun c => c.holds σ)

theorem holds_of_satisfies {σ : Valuation} {cs : List Cons} {c : Cons}
    (hs : satisfies σ cs = true) (hc : c ∈ cs) : c.holds σ = true :=
  List.all_eq_true.mp hs c hc

theorem satisfies_append {σ : Valuation} {cs ds : List Cons} :
    satisfies σ (cs ++ ds) = (satisfies σ cs && satisfies σ ds) := by
  simp [satisfies, List.all_append]

-- ===========================================================================
-- Variable model (TimetableModelBuilder._create_lesson_variables)
-- ===========================================================================

/-- The name prefix `L{lesson_id}_I{instance}` used by the builder. -/
def namePre (lid : String) (i : Nat) : String :=
  "L" ++ lid ++ "_I" ++ toString i

/-- Name of the start variable of a lesson instance. -/
def startNm (lid : String) (i : Nat) : String := namePre lid i ++ "_start"

/-- Name of the end variable of a lesson instance. -/
def endNm (lid : String) (i : Nat) : String := namePre lid i ++ "_end"

/-- Name of the day variable of a lesson instance. -/
def dayNm (lid : String) (i : Nat) : String := namePre lid i ++ "_day"

/-- Name of the room variable of a lesson instance. -/
def roomNm (lid : String) (i : Nat) : String := namePre lid i ++ "_room"

/-- The record `LessonInstanceVars` of one lesson instance: the variable
names plus the fixed duration. -/
structure InstVars where
  lesson_id : String
  instanceIdx : Nat
  startVar : String
  endVar : String
  duration : Int
  dayVar : String
  roomVar : String
  deriving DecidableEq

/-- The instance-variable record created for instance `i` of a lesson. -/
def mkInstVars (l : Lesson) (i : Nat) : InstVars :=
  { lesson_id := l.id
    instanceIdx := i
    startVar := startNm l.id i
    endVar := endNm l.id i
    duration := l.duration_minutes
    dayVar := dayNm l.id i
    roomVar := roomNm l.id i }

/-- All instance records of one lesson, one per weekly occurrence. -/
def instVarsFor (l : Lesson) : List InstVars :=
  (List.range l.lessons_per_week).map (mkInstVars l)

/-- The constraints `_create_lesson_variables` posts for one instance:
variable domains, the equality `end == start + duration` and the
division equality `day == start // MINUTES_PER_DAY`.  (The interval
variable itself adds no constraint.) -/
def instCons (numDays wm : Int) (numRooms : Nat) (iv : InstVars) : List Cons :=
  [ .lift (.geC iv.startVar 0), .lift (.leC iv.startVar (wm - iv.duration)),
    .lift (.geC iv.endVar iv.duration), .lift (.leC iv.endVar wm),
    .lift (.eqAddC iv.endVar iv.startVar iv.duration),
    .lift (.geC iv.dayVar 0), .lift (.leC iv.dayVar (numDays - 1)),
    .lift (.divEq iv.dayVar iv.startVar minutesPerDay),
    .lift (.geC iv.roomVar 0),
    .lift (.leC iv.roomVar ((numRooms : Int) - 1)) ]

/-- The map from lesson id to instance records; a Python dict written once
per lesson, so later lessons with the same id overwrite earlier ones. -/
abbrev LVDict := List (String × List InstVars)

/-- Writing a key into a Python dict: overwrite in place if present,
append otherwise. -/
def dictUpsert (k : String) (v : α) : List (String × α) → List (String × α)
  | [] => [(k, v)]
  | (k', v') :: rest =>
    if k == k' then (k, v) :: rest else (k', v') :: dictUpsert k v rest

/-- Embeds `dict.get(k, dflt)`. -/
def dictGetD (d : List (String × α)) (k : String) (dflt : α) : α :=
  match d.find? (fun p => p.1 == k) with
  | some p => p.2
  | none => dflt

/-- The `lesson_vars` dict after `create_variables`. -/
def createVariablesDict (input : TimetableInput) : LVDict :=
  input.lessons.foldl (fun d l => dictUpsert l.id (instVarsFor l) d) []

/-- Every constraint posted by `create_variables`. -/
def createVariablesCons (input : TimetableInput) : List Cons :=
  input.lessons.flatMap (fun l =>
    (instVarsFor l).flatMap
      (instCons (input.config.num_days : Int) (weekMinutes input)
        input.rooms.length))

-- ===========================================================================
-- Valid time slots (TimetableModelBuilder._add_valid_time_slots_constraint)
-- ===========================================================================

/-- The allowed week-minute start offsets for a given duration: starts of
schedulable periods long enough to host the lesson. -/
def allowedStartsFor (input : TimetableInput) (dur : Int) : List Int :=
  (schedulablePeriods input).filterMap (fun p =>
    let ws := dayMinutesToWeekMinutes p.day p.start_minutes
    let we := dayMinutesToWeekMinutes p.day p.end_minutes
    if we - ws ≥ dur then some ws else none)

/-- Embeds `_add_valid_time_slots_constraint`: restrict each start variable to its
allowed offsets, or post the impossible `start == -1` when none exist. -/
def addValidTimeSlotsCons (input : TimetableInput) (lv : LVDict) : List Cons :=
  lv.flatMap (fun kv =>
    kv.2.flatMap (fun iv =>
      let allowed := allowedStartsFor input iv.duration
      if allowed.isEmpty then [Cons.lift (.eqC iv.startVar (-1))]
      else [Cons.lift (.memOf iv.startVar allowed)]))

-- ===========================================================================
-- Generic list/dict lemmas about the embedding
-- ===========================================================================

theorem dictUpsert_append_of_fresh {α : Type} (k : String) (v : α)
    (d : List (String × α)) (hf : ∀ p ∈ d, p.1 ≠ k) :
    dictUpsert k v d = d ++ [(k, v)] := by
  induction d with
  | nil => rfl
  | cons hd tl ih =>
    have hne : ¬ (k == hd.1) = true := by
      simp only [beq_iff_eq]
      exact fun h => hf hd (by simp) (h ▸ rfl)
    simp only [dictUpsert, if_neg hne]
    rw [ih (fun p hp => hf p (List.mem_cons_of_mem _ hp))]
    rfl

theorem foldl_upsert_eq_append {α : Type} (f : Lesson → α) :
    ∀ (ls : List Lesson) (acc : List (String × α)),
    (ls.map (fun l => l.id)).Nodup →
    (∀ l ∈ ls, ∀ p ∈ acc, p.1 ≠ l.id) →
    ls.foldl (fun d l => dictUpsert l.id (f l) d) acc
      = acc ++ ls.map (fun l => (l.id, f l)) := by
  intro ls
  induction ls with
  | nil => intro acc _ _; simp
  | cons hd tl ih =>
    intro acc hnd hfr
    simp only [List.foldl_cons]
    rw [dictUpsert_append_of_fresh hd.id (f hd) acc
      (fun p hp => hfr hd (by simp) p hp)]
    rw [ih (acc ++ [(hd.id, f hd)]) (by simpa using hnd.of_cons)]
    · simp
    · intro l hl p hp
      rcases List.mem_append.mp hp with h | h
      · exact hfr l (List.mem_cons_of_mem _ hl) p h
      · simp only [List.mem_singleton] at h
        subst h
        simp only [List.map_cons, List.nodup_cons] at hnd
        intro he
        have he' : hd.id = l.id := he
        exact hnd.1 (by rw [he']; exact List.mem_map_of_mem _ hl)

/-- Under distinct lesson ids, the `lesson_vars` dict is just the list of
lessons paired with their instance records. -/
theorem createVariablesDict_eq (input : TimetableInput)
    (hnd : (input.lessons.map (fun l => l.id)).Nodup) :
    createVariablesDict input
      = input.lessons.map (fun l => (l.id, instVarsFor l)) := by
  simpa [createVariablesDict] using
    foldl_upsert_eq_append instVarsFor input.lessons [] hnd (by simp)

theorem lastFind?_eq_none {p : α → Bool} {xs : List α}
    (h : ∀ x ∈ xs, p x = false) : lastFind? p xs = none := by
  induction xs with
  | nil => rfl
  | cons hd tl ih =>
    simp only [lastFind?, ih (fun x hx => h x (List.mem_cons_of_mem _ hx))]
    simp [h hd (by simp)]

theorem lastFind?_id_eq {ls : List Lesson}
    (hnd : (ls.map (fun l => l.id)).Nodup) {l : Lesson} (hl : l ∈ ls) :
    lastFind? (fun x => x.id == l.id) ls = some l := by
  induction ls with
  | nil => cases hl
  | cons hd tl ih =>
    simp only [List.map_cons, List.nodup_cons] at hnd
    rcases List.mem_cons.mp hl with h | h
    · subst h
      have hnone : lastFind? (fun x => x.id == l.id) tl = none := by
        apply lastFind?_eq_none
        intro x hx
        simp only [beq_eq_false_iff_ne, ne_eq]
        intro he
        exact hnd.1 (by rw [← he]; exact List.mem_map_of_mem _ hx)
      simp [lastFind?, hnone]
    · have := ih hnd.2 h
      simp only [lastFind?, this]

theorem getLesson_eq_of_nodup (input : TimetableInput)
    (hnd : (input.lessons.map (fun l => l.id)).Nodup)
    {l : Lesson} (hl : l ∈ input.lessons) :
    getLesson input l.id = some l :=
  lastFind?_id_eq hnd hl

theorem mem_enum_of_getElem? {l : List α} {i : Nat} {x : α}
    (h : l[i]? = some x) : (i, x) ∈ l.enum :=
  List.mk_mem_enum_iff_getElem?.mpr h

theorem mem_instVarsFor {l : Lesson} {i : Nat} (hi : i < l.lessons_per_week) :
    mkInstVars l i ∈ instVarsFor l :=
  List.mem_map_of_mem _ (List.mem_range.mpr hi)

theorem mem_createVariablesCons {input : TimetableInput} {l : Lesson}
    (hl : l ∈ input.lessons) {i : Nat} (hi : i < l.lessons_per_week)
    {c : Cons}
    (hc : c ∈ instCons (input.config.num_days : Int) (weekMinutes input)
            input.rooms.length (mkInstVars l i)) :
    c ∈ createVariablesCons input :=
  List.mem_flatMap.mpr ⟨l, hl,
    List.mem_flatMap.mpr ⟨mkInstVars l i, mem_instVarsFor hi, hc⟩⟩

theorem mem_addValidTimeSlotsCons {input : TimetableInput} {lv : LVDict}
    {kv : String × List InstVars} (hkv : kv ∈ lv) {iv : InstVars}
    (hiv : iv ∈ kv.2) {c : Cons}
    (hc : c ∈ (if (allowedStartsFor input iv.duration).isEmpty
               then [Cons.lift (.eqC iv.startVar (-1))]
               else [Cons.lift
                 (.memOf iv.startVar (allowedStartsFor input iv.duration))])) :
    c ∈ addValidTimeSlotsCons input lv := by
  refine List.mem_flatMap.mpr ⟨kv, hkv, List.mem_flatMap.mpr ⟨iv, hiv, ?_⟩⟩
  simpa [addValidTimeSlotsCons] using hc

-- ===========================================================================
-- Claim theorems: C3 and C2
-- ===========================================================================

/-- C3: for every lesson instance the variable model enforces
`end == start + duration`, links `day` to `start` by the posted integer
division equality (which, `start` being non-negative, is the floor of
`start / 1440`), and gives `start` the domain `[0, weekMinutes - duration]`
and `room` the domain `[0, numRooms - 1]`; hence every accepted solution
satisfies `end - start == duration` and `day == floor(start / 1440)`. -/
theorem lesson_instance_variable_links
    (input : TimetableInput) (σ : Valuation) (l : Lesson) (i : Nat)
    (hl : l ∈ input.lessons) (hi : i < l.lessons_per_week)
    (hs : satisfies σ (createVariablesCons input) = true) :
    σ (endNm l.id i) = σ (startNm l.id i) + l.duration_minutes ∧
    σ (dayNm l.id i) = Int.tdiv (σ (startNm l.id i)) minutesPerDay ∧
    σ (dayNm l.id i) = Int.fdiv (σ (startNm l.id i)) minutesPerDay ∧
    0 ≤ σ (startNm l.id i) ∧
    σ (startNm l.id i) ≤ weekMinutes input - l.duration_minutes ∧
    0 ≤ σ (roomNm l.id i) ∧
    σ (roomNm l.id i) ≤ (input.rooms.length : Int) - 1 := by
  have hmem : ∀ c ∈ instCons (input.config.num_days : Int) (weekMinutes input)
      input.rooms.length (mkInstVars l i), c ∈ createVariablesCons input :=
    fun c hc => mem_createVariablesCons hl hi hc
  have hEnd := holds_of_satisfies hs (hmem _ (by simp [instCons] : Cons.lift (.eqAddC (mkInstVars l i).endVar
      (mkInstVars l i).startVar (mkInstVars l i).duration) ∈ _))
  have hDiv := holds_of_satisfies hs (hmem _ (by simp [instCons] : Cons.lift (.divEq (mkInstVars l i).dayVar
      (mkInstVars l i).startVar minutesPerDay) ∈ _))
  have hS0 := holds_of_satisfies hs (hmem _ (by simp [instCons] : Cons.lift
      (.geC (mkInstVars l i).startVar 0) ∈ _))
  have hS1 := holds_of_satisfies hs (hmem _ (by simp [instCons] : Cons.lift (.leC (mkInstVars l i).startVar
      (weekMinutes input - (mkInstVars l i).duration)) ∈ _))
  have hR0 := holds_of_satisfies hs (hmem _ (by simp [instCons] : Cons.lift
      (.geC (mkInstVars l i).roomVar 0) ∈ _))
  have hR1 := holds_of_satisfies hs (hmem _ (by simp [instCons] : Cons.lift (.leC (mkInstVars l i).roomVar
      ((input.rooms.length : Int) - 1)) ∈ _))
  simp only [Cons.holds, Atom.holds, decide_eq_true_eq, mkInstVars]
    at hEnd hDiv hS0 hS1 hR0 hR1
  refine ⟨hEnd, hDiv, ?_, hS0, hS1, hR0, hR1⟩
  rw [hDiv, Int.tdiv_eq_ediv hS0 (by norm_num [minutesPerDay]),
    Int.fdiv_eq_ediv _ (by norm_num [minutesPerDay])]

/-- C2: under an accepted solution of the variable-creation constraints and
the valid-time-slot constraints, every instance has a non-empty set of
valid start offsets and its start lies in that set (so an instance with an
empty set makes the model infeasible); moreover the posted constraint is
exactly `start == -1` when the set is empty and exactly the finite-set
restriction when it is not. -/
theorem valid_time_slots_fail_loud
    (input : TimetableInput) (σ : Valuation) (l : Lesson) (i : Nat)
    (hnd : (input.lessons.map (fun l => l.id)).Nodup)
    (hl : l ∈ input.lessons) (hi : i < l.lessons_per_week) :
    (allowedStartsFor input l.duration_minutes = [] →
      Cons.lift (.eqC (startNm l.id i) (-1))
        ∈ addValidTimeSlotsCons input (createVariablesDict input)) ∧
    (allowedStartsFor input l.duration_minutes ≠ [] →
      Cons.lift (.memOf (startNm l.id i)
          (allowedStartsFor input l.duration_minutes))
        ∈ addValidTimeSlotsCons input (createVariablesDict input)) ∧
    (satisfies σ (createVariablesCons input
        ++ addValidTimeSlotsCons input (createVariablesDict input)) = true →
      allowedStartsFor input l.duration_minutes ≠ [] ∧
      σ (startNm l.id i) ∈ allowedStartsFor input l.duration_minutes) := by
  have hkv : (l.id, instVarsFor l) ∈ createVariablesDict input := by
    rw [createVariablesDict_eq input hnd]
    exact List.mem_map_of_mem _ hl
  have hiv : mkInstVars l i ∈ (l.id, instVarsFor l).2 := mem_instVarsFor hi
  have hdur : (mkInstVars l i).duration = l.duration_minutes := rfl
  have hme : allowedStartsFor input l.duration_minutes = [] →
      Cons.lift (.eqC (startNm l.id i) (-1))
        ∈ addValidTimeSlotsCons input (createVariablesDict input) := by
    intro hA
    refine mem_addValidTimeSlotsCons hkv hiv ?_
    simp [mkInstVars, hdur, hA]
  have hmn : allowedStartsFor input l.duration_minutes ≠ [] →
      Cons.lift (.memOf (startNm l.id i)
          (allowedStartsFor input l.duration_minutes))
        ∈ addValidTimeSlotsCons input (createVariablesDict input) := by
    intro hA
    refine mem_addValidTimeSlotsCons hkv hiv ?_
    simp [mkInstVars, hdur, List.isEmpty_iff, hA]
  refine ⟨hme, hmn, ?_⟩
  intro hs
  rw [satisfies_append, Bool.and_eq_true] at hs
  by_cases hA : allowedStartsFor input l.duration_minutes = []
  · exfalso
    have hSlot := holds_of_satisfies hs.2 (hme hA)
    have hS0 := holds_of_satisfies hs.1 (mem_createVariablesCons hl hi
      (by simp [instCons] : Cons.lift
        (.geC (mkInstVars l i).startVar 0) ∈ _))
    simp only [Cons.holds, Atom.holds, decide_eq_true_eq, mkInstVars]
      at hSlot hS0
    omega
  · have hSlot := holds_of_satisfies hs.2 (hmn hA)
    simp only [Cons.holds, Atom.holds, decide_eq_true_eq, mkInstVars]
      at hSlot
    exact ⟨hA, hSlot⟩

-- ===========================================================================
-- Availability encoder (solver/constraints/availability.py)
-- ===========================================================================

/-- Embeds `_get_unavailable_ranges`: absolute week-minute ranges of the windows
marked unavailable. -/
def unavailableRanges (av : List Availability) : List (Int × Int) :=
  av.filterMap (fun a =>
    if !a.available then
      some (dayMinutesToWeekMinutes a.day a.start_minutes,
        dayMinutesToWeekMinutes a.day a.end_minutes)
    else none)

/-- Name of the `ends_before` boolean of `_add_no_overlap_with_range`. -/
def ebNm (pre : String) (iv : InstVars) : String :=
  pre ++ "_L" ++ iv.lesson_id ++ "_I" ++ toString iv.instanceIdx
    ++ "_ends_before"

/-- Name of the `starts_after` boolean of `_add_no_overlap_with_range`. -/
def saNm (pre : String) (iv : InstVars) : String :=
  pre ++ "_L" ++ iv.lesson_id ++ "_I" ++ toString iv.instanceIdx
    ++ "_starts_after"

/-- Embeds `_add_no_overlap_with_range`: the two two-sided reified booleans and the
unconditional disjunction forbidding overlap with `[rs, re)`. -/
def noOverlapWithRangeCons (iv : InstVars) (rs re : Int) (pre : String) :
    List Cons :=
  let eb := ebNm pre iv
  let sa := saNm pre iv
  [ .lift (.geC eb 0), .lift (.leC eb 1),
    .lift (.geC sa 0), .lift (.leC sa 1),
    .impP eb (.leC iv.endVar rs),
    .impN eb (.gtC iv.endVar rs),
    .impP sa (.geC iv.startVar re),
    .impN sa (.ltC iv.startVar re),
    .boolOr [(eb, true), (sa, true)] ]

/-- Embeds `add_teacher_unavailability`: every instance of every lesson of a teacher
must avoid each of the teacher's unavailable ranges. -/
def addTeacherUnavailability (input : TimetableInput) (lv : LVDict) :
    List Cons :=
  input.teachers.flatMap (fun t =>
    if t.availability.isEmpty then []
    else
      let ranges := unavailableRanges t.availability
      if ranges.isEmpty then []
      else
        (getTeacherLessons input t.id).flatMap (fun l =>
          (dictGetD lv l.id []).flatMap (fun iv =>
            ranges.flatMap (fun r =>
              noOverlapWithRangeCons iv r.1 r.2
                ("T" ++ t.id ++ "_unavail_" ++ toString r.1)))))

/-- Embeds `add_class_unavailability`: the same encoding for student classes. -/
def addClassUnavailability (input : TimetableInput) (lv : LVDict) :
    List Cons :=
  input.classes.flatMap (fun c =>
    if c.availability.isEmpty then []
    else
      let ranges := unavailableRanges c.availability
      if ranges.isEmpty then []
      else
        (getClassLessons input c.id).flatMap (fun l =>
          (dictGetD lv l.id []).flatMap (fun iv =>
            ranges.flatMap (fun r =>
              noOverlapWithRangeCons iv r.1 r.2
                ("C" ++ c.id ++ "_unavail_" ++ toString r.1)))))

/-- Embeds `_add_conditional_no_overlap`: the same reified pair, but the disjunction
is guarded by the given condition literal
(`NOT condition OR ends_before OR starts_after`). -/
def conditionalNoOverlapCons (iv : InstVars) (rs re : Int) (cond : String)
    (pre : String) : List Cons :=
  let eb := ebNm pre iv
  let sa := saNm pre iv
  [ .lift (.geC eb 0), .lift (.leC eb 1),
    .lift (.geC sa 0), .lift (.leC sa 1),
    .impP eb (.leC iv.endVar rs),
    .impN eb (.gtC iv.endVar rs),
    .impP sa (.geC iv.startVar re),
    .impN sa (.ltC iv.startVar re),
    .boolOr [(cond, false), (eb, true), (sa, true)] ]

/-- Name of the `is_in_room` indicator of `add_room_unavailability`. -/
def roomIndNm (lid : String) (iv : InstVars) (rid : String) (rs : Int) :
    String :=
  "L" ++ lid ++ "_I" ++ toString iv.instanceIdx ++ "_in_R" ++ rid
    ++ "_unavail_" ++ toString rs

/-- Embeds `add_room_unavailability`: for each room unavailability window and each
instance, a two-sidedly reified room indicator gates the non-overlap
disjunction. -/
def addRoomUnavailability (input : TimetableInput) (lv : LVDict) :
    List Cons :=
  input.rooms.enum.flatMap (fun p =>
    let ri := p.1
    let room := p.2
    if room.availability.isEmpty then []
    else
      let ranges := unavailableRanges room.availability
      if ranges.isEmpty then []
      else
        lv.flatMap (fun kv =>
          match getLesson input kv.1 with
          | none => []
          | some _ =>
            kv.2.flatMap (fun iv =>
              ranges.flatMap (fun r =>
                let ind := roomIndNm kv.1 iv room.id r.1
                [ Cons.lift (.geC ind 0), Cons.lift (.leC ind 1),
                  Cons.impP ind (.eqC iv.roomVar (ri : Int)),
                  Cons.impN ind (.neC iv.roomVar (ri : Int)) ] ++
                conditionalNoOverlapCons iv r.1 r.2 ind
                  ("R" ++ room.id ++ "_unavail_" ++ toString r.1)))))

/-- Truth of a range membership claim extracted below: a window of an
availability list yields its week-minute bounds in `unavailableRanges`. -/
theorem mem_unavailableRanges {av : List Availability} {a : Availability}
    (ha : a ∈ av) (hua : a.available = false) :
    (dayMinutesToWeekMinutes a.day a.start_minutes,
      dayMinutesToWeekMinutes a.day a.end_minutes) ∈ unavailableRanges av := by
  refine List.mem_filterMap.mpr ⟨a, ha, ?_⟩
  simp [hua]

/-- Satisfying the block posted by `_add_no_overlap_with_range` forces the
instance to avoid the range. -/
theorem noOverlapWithRange_sound {σ : Valuation} {iv : InstVars}
    {rs re : Int} {pre : String} {cs : List Cons}
    (hsub : ∀ c ∈ noOverlapWithRangeCons iv rs re pre, c ∈ cs)
    (hs : satisfies σ cs = true) :
    σ iv.endVar ≤ rs ∨ σ iv.startVar ≥ re := by
  have hOr := holds_of_satisfies hs (hsub _ (by simp [noOverlapWithRangeCons] :
    Cons.boolOr [(ebNm pre iv, true), (saNm pre iv, true)] ∈ _))
  have hEb := holds_of_satisfies hs (hsub _ (by simp [noOverlapWithRangeCons] :
    Cons.impP (ebNm pre iv) (.leC iv.endVar rs) ∈ _))
  have hSa := holds_of_satisfies hs (hsub _ (by simp [noOverlapWithRangeCons] :
    Cons.impP (saNm pre iv) (.geC iv.startVar re) ∈ _))
  simp only [Cons.holds, Atom.holds, List.any_cons, List.any_nil, litHolds,
    Bool.or_eq_true, decide_eq_true_eq, Bool.not_eq_true', if_pos,
    decide_eq_false_iff_not] at hOr hEb hSa
  rcases hOr with h | h | h
  · rcases hEb with he | he
    · simp [h] at he
    · exact Or.inl he
  · rcases hSa with hx | hx
    · simp [h] at hx
    · exact Or.inr hx
  · cases h

/-- C4: for every unavailable window of a teacher (or of a class) and every
instance of a lesson of that entity, the model contains the unconditional
disjunction block of the two two-sided reified booleans `ends_before` and
`starts_after`; consequently, in every accepted solution the instance ends
at or before the window start or starts at or after the window end, so it
never overlaps the window. -/
theorem entity_unavailability_no_overlap
    (input : TimetableInput) (lv : LVDict) (σ : Valuation) :
    (∀ t ∈ input.teachers, ∀ a ∈ t.availability, a.available = false →
      ∀ l ∈ getTeacherLessons input t.id, ∀ iv ∈ dictGetD lv l.id [],
      (Cons.boolOr
        [(ebNm ("T" ++ t.id ++ "_unavail_"
            ++ toString (dayMinutesToWeekMinutes a.day a.start_minutes)) iv,
          true),
         (saNm ("T" ++ t.id ++ "_unavail_"
            ++ toString (dayMinutesToWeekMinutes a.day a.start_minutes)) iv,
          true)] ∈ addTeacherUnavailability input lv) ∧
      (satisfies σ (addTeacherUnavailability input lv) = true →
        σ iv.endVar ≤ dayMinutesToWeekMinutes a.day a.start_minutes ∨
        σ iv.startVar ≥ dayMinutesToWeekMinutes a.day a.end_minutes)) ∧
    (∀ c ∈ input.classes, ∀ a ∈ c.availability, a.available = false →
      ∀ l ∈ getClassLessons input c.id, ∀ iv ∈ dictGetD lv l.id [],
      satisfies σ (addClassUnavailability input lv) = true →
        σ iv.endVar ≤ dayMinutesToWeekMinutes a.day a.start_minutes ∨
        σ iv.startVar ≥ dayMinutesToWeekMinutes a.day a.end_minutes) := by
  constructor
  · intro t ht a ha hua l hl iv hiv
    have hr := mem_unavailableRanges ha hua
    have hsub : ∀ c ∈ noOverlapWithRangeCons iv
        (dayMinutesToWeekMinutes a.day a.start_minutes)
        (dayMinutesToWeekMinutes a.day a.end_minutes)
        ("T" ++ t.id ++ "_unavail_"
          ++ toString (dayMinutesToWeekMinutes a.day a.start_minutes)),
        c ∈ addTeacherUnavailability input lv := by
      intro c hc
      refine List.mem_flatMap.mpr ⟨t, ht, ?_⟩
      have hne : t.availability.isEmpty = false :=
        List.isEmpty_eq_false_iff_exists_mem.mpr ⟨a, ha⟩
      have hrne : (unavailableRanges t.availability).isEmpty = false :=
        List.isEmpty_eq_false_iff_exists_mem.mpr ⟨_, hr⟩
      simp only [hne, hrne, Bool.false_eq_true, if_false]
      exact List.mem_flatMap.mpr ⟨l, hl, List.mem_flatMap.mpr ⟨iv, hiv,
        List.mem_flatMap.mpr ⟨_, hr, hc⟩⟩⟩
    constructor
    · exact hsub _ (by simp [noOverlapWithRangeCons])
    · intro hs
      exact noOverlapWithRange_sound hsub hs
  · intro c hc a ha hua l hl iv hiv hs
    have hr := mem_unavailableRanges ha hua
    have hsub : ∀ x ∈ noOverlapWithRangeCons iv
        (dayMinutesToWeekMinutes a.day a.start_minutes)
        (dayMinutesToWeekMinutes a.day a.end_minutes)
        ("C" ++ c.id ++ "_unavail_"
          ++ toString (dayMinutesToWeekMinutes a.day a.start_minutes)),
        x ∈ addClassUnavailability input lv := by
      intro x hx
      refine List.mem_flatMap.mpr ⟨c, hc, ?_⟩
      have hne : c.availability.isEmpty = false :=
        List.isEmpty_eq_false_iff_exists_mem.mpr ⟨a, ha⟩
      have hrne : (unavailableRanges c.availability).isEmpty = false :=
        List.isEmpty_eq_false_iff_exists_mem.mpr ⟨_, hr⟩
      simp only [hne, hrne, Bool.false_eq_true, if_false]
      exact List.mem_flatMap.mpr ⟨l, hl, List.mem_flatMap.mpr ⟨iv, hiv,
        List.mem_flatMap.mpr ⟨_, hr, hx⟩⟩⟩
    exact noOverlapWithRange_sound hsub hs

/-- C5: for every room unavailability window and every lesson instance, the
model posts the clause `NOT is_in_room OR ends_before OR starts_after`, and
under every accepted solution an instance actually assigned to the room
avoids the window. -/
theorem room_unavailability_gated
    (input : TimetableInput) (lv : LVDict) (σ : Valuation)
    (ri : Nat) (room : Room) (hri : input.rooms[ri]? = some room)
    (a : Availability) (ha : a ∈ room.availability)
    (hua : a.available = false)
    (kv : String × List InstVars) (hkv : kv ∈ lv)
    (l : Lesson) (hl : getLesson input kv.1 = some l)
    (iv : InstVars) (hiv : iv ∈ kv.2) :
    (Cons.boolOr
      [(roomIndNm kv.1 iv room.id
          (dayMinutesToWeekMinutes a.day a.start_minutes), false),
       (ebNm ("R" ++ room.id ++ "_unavail_"
          ++ toString (dayMinutesToWeekMinutes a.day a.start_minutes)) iv,
        true),
       (saNm ("R" ++ room.id ++ "_unavail_"
          ++ toString (dayMinutesToWeekMinutes a.day a.start_minutes)) iv,
        true)] ∈ addRoomUnavailability input lv) ∧
    (satisfies σ (addRoomUnavailability input lv) = true →
      σ iv.roomVar = (ri : Int) →
      σ iv.endVar ≤ dayMinutesToWeekMinutes a.day a.start_minutes ∨
      σ iv.startVar ≥ dayMinutesToWeekMinutes a.day a.end_minutes) := by
  have hr := mem_unavailableRanges ha hua
  have hblock : ∀ x ∈ ([ Cons.lift (.geC (roomIndNm kv.1 iv room.id
        (dayMinutesToWeekMinutes a.day a.start_minutes)) 0),
      Cons.lift (.leC (roomIndNm kv.1 iv room.id
        (dayMinutesToWeekMinutes a.day a.start_minutes)) 1),
      Cons.impP (roomIndNm kv.1 iv room.id
        (dayMinutesToWeekMinutes a.day a.start_minutes))
        (.eqC iv.roomVar (ri : Int)),
      Cons.impN (roomIndNm kv.1 iv room.id
        (dayMinutesToWeekMinutes a.day a.start_minutes))
        (.neC iv.roomVar (ri : Int)) ] ++
      conditionalNoOverlapCons iv
        (dayMinutesToWeekMinutes a.day a.start_minutes)
        (dayMinutesToWeekMinutes a.day a.end_minutes)
        (roomIndNm kv.1 iv room.id
          (dayMinutesToWeekMinutes a.day a.start_minutes))
        ("R" ++ room.id ++ "_unavail_"
          ++ toString (dayMinutesToWeekMinutes a.day a.start_minutes))),
      x ∈ addRoomUnavailability input lv := by
    intro x hx
    refine List.mem_flatMap.mpr ⟨(ri, room), mem_enum_of_getElem? hri, ?_⟩
    have hne : room.availability.isEmpty = false :=
      List.isEmpty_eq_false_iff_exists_mem.mpr ⟨a, ha⟩
    have hrne : (unavailableRanges room.availability).isEmpty = false :=
      List.isEmpty_eq_false_iff_exists_mem.mpr ⟨_, hr⟩
    simp only [hne, hrne, Bool.false_eq_true, if_false]
    refine List.mem_flatMap.mpr ⟨kv, hkv, ?_⟩
    rw [hl]
    exact List.mem_flatMap.mpr ⟨iv, hiv, List.mem_flatMap.mpr ⟨_, hr, hx⟩⟩
  constructor
  · refine hblock _ ?_
    simp [conditionalNoOverlapCons]
  · intro hs hroom
    have hIndN := holds_of_satisfies hs (hblock _ (by
      simp : Cons.impN (roomIndNm kv.1 iv room.id
        (dayMinutesToWeekMinutes a.day a.start_minutes))
        (.neC iv.roomVar (ri : Int)) ∈ _))
    have hOr := holds_of_satisfies hs (hblock _ (by
      simp [conditionalNoOverlapCons] : Cons.boolOr
        [(roomIndNm kv.1 iv room.id
            (dayMinutesToWeekMinutes a.day a.start_minutes), false),
         (ebNm ("R" ++ room.id ++ "_unavail_"
            ++ toString (dayMinutesToWeekMinutes a.day a.start_minutes)) iv,
          true),
         (saNm ("R" ++ room.id ++ "_unavail_"
            ++ toString (dayMinutesToWeekMinutes a.day a.start_minutes)) iv,
          true)] ∈ _))
    have hEb := holds_of_satisfies hs (hblock _ (by
      simp [conditionalNoOverlapCons] : Cons.impP
        (ebNm ("R" ++ room.id ++ "_unavail_"
          ++ toString (dayMinutesToWeekMinutes a.day a.start_minutes)) iv)
        (.leC iv.endVar (dayMinutesToWeekMinutes a.day a.start_minutes)) ∈ _))
    have hSa := holds_of_satisfies hs (hblock _ (by
      simp [conditionalNoOverlapCons] : Cons.impP
        (saNm ("R" ++ room.id ++ "_unavail_"
          ++ toString (dayMinutesToWeekMinutes a.day a.start_minutes)) iv)
        (.geC iv.startVar
          (dayMinutesToWeekMinutes a.day a.end_minutes)) ∈ _))
    simp only [Cons.holds, Atom.holds, List.any_cons, List.any_nil, litHolds,
      Bool.or_eq_true, decide_eq_true_eq, Bool.not_eq_true',
      decide_eq_false_iff_not, if_pos, if_neg, Bool.if_false_left,
      Bool.if_true_left] at hIndN hOr hEb hSa
    rcases hOr with h | h | h | h
    · rcases hIndN with hx | hx
      · exact absurd h hx
      · exact absurd hroom hx
    · rcases hEb with hx | hx
      · simp [h] at hx
      · exact Or.inl hx
    · rcases hSa with hx | hx
      · simp [h] at hx
      · exact Or.inr hx
    · cases h

-- ===========================================================================
-- Room suitability (solver/constraints/rooms.py) and the shared
-- required-room-type computation
-- ===========================================================================

/-- Embeds `_get_required_room_type` (also inlined in the builder): the lesson-level
room type requirement, else the subject-level one when the subject requires
a specialist room. -/
def requiredRoomTypeLS (l : Lesson) (subj : Option Subject) : Option String :=
  match l.room_requirement.bind (fun r => r.room_type) with
  | some rt => some rt
  | none =>
    match subj with
    | some s => if s.requires_specialist_room then s.required_room_type
                else none
    | none => none

/-- The required room type of a lesson with the subject looked up from the
input (as both the builder and the rooms module do). -/
def requiredRoomTypeOf (input : TimetableInput) (l : Lesson) : Option String :=
  requiredRoomTypeLS l (getSubject input l.subject_id)

/-- Embeds `_get_min_capacity`: the lesson-level explicit minimum, else the class
size. -/
def minCapacityOf (l : Lesson) (classSize : Option Int) : Option Int :=
  match l.room_requirement with
  | some r =>
    match r.min_capacity with
    | some m => some m
    | none => classSize
  | none => classSize

/-- The `is_valid` verdict of `_evaluate_room_suitability`: evaluates in
order the exclusion list, the explicit preferred/required room list, the
required room type, the minimum capacity and the required equipment. -/
def roomSuitabilityValid (room : Room) (l : Lesson) (classSize : Option Int)
    (subj : Option Subject) : Bool :=
  if (match l.room_requirement with
      | some r => r.excluded_rooms.contains room.id
      | none => false) then false
  else if (match l.room_requirement with
      | some r => !r.preferred_rooms.isEmpty
          && !(r.preferred_rooms.contains room.id)
      | none => false) then false
  else if (match requiredRoomTypeLS l subj with
      | some rt => !(room.type == rt)
      | none => false) then false
  else if (match minCapacityOf l classSize, room.capacity with
      | some mc, some c => decide (c < mc)
      | _, _ => false) then false
  else if (match l.room_requirement with
      | some r => !r.requires_equipment.isEmpty
          && !(r.requires_equipment.all (fun e => room.equipment.contains e))
      | none => false) then false
  else true

/-- Embeds `get_valid_rooms_for_lesson`: indices of rooms passing the full
suitability filter. -/
def getValidRoomsForLesson (input : TimetableInput) (l : Lesson) :
    List Nat :=
  let classSize := (getClass input l.class_id).bind
    (fun c => c.student_count)
  let subj := getSubject input l.subject_id
  input.rooms.enum.filterMap (fun p =>
    if roomSuitabilityValid p.2 l classSize subj then some p.1 else none)

/-- Embeds `add_room_assignment_constraints`: restrict each instance's room to the
admissible set, posting the impossible `room == -1` when that set is empty
and no constraint when every room qualifies. -/
def addRoomAssignmentConstraints (input : TimetableInput) (lv : LVDict) :
    List Cons :=
  input.lessons.flatMap (fun l =>
    let valid := getValidRoomsForLesson input l
    if valid.isEmpty then
      (dictGetD lv l.id []).map (fun iv => Cons.lift (.eqC iv.roomVar (-1)))
    else if valid.length == input.rooms.length then []
    else
      (dictGetD lv l.id []).map (fun iv =>
        Cons.lift (.memOf iv.roomVar (valid.map (fun n => (n : Int))))))

-- ===========================================================================
-- Remaining builder constraint functions (TimetableModelBuilder)
-- ===========================================================================

/-- Embeds `_is_room_valid_for_lesson` (the builder's own lighter filter: exclusion
list and required room type only). -/
def isRoomValidForLesson (input : TimetableInput) (room : Room)
    (l : Lesson) : Bool :=
  if (match l.room_requirement with
      | some r => r.excluded_rooms.contains room.id
      | none => false) then false
  else
    match requiredRoomTypeOf input l with
    | some rt => room.type == rt
    | none => true

/-- The interval construct of a lesson instance. -/
def intervalOf (iv : InstVars) : IntervalD :=
  { startVar := iv.startVar, dur := iv.duration, endVar := iv.endVar,
    pres := none }

/-- Embeds `get_teacher_intervals`. -/
def getTeacherIntervals (input : TimetableInput) (lv : LVDict)
    (tid : String) : List IntervalD :=
  input.lessons.flatMap (fun l =>
    if l.teacher_id == tid then (dictGetD lv l.id []).map intervalOf else [])

/-- Embeds `get_class_intervals`. -/
def getClassIntervals (input : TimetableInput) (lv : LVDict)
    (cid : String) : List IntervalD :=
  input.lessons.flatMap (fun l =>
    if l.class_id == cid then (dictGetD lv l.id []).map intervalOf else [])

/-- Embeds `_add_teacher_no_overlap_constraint`. -/
def addTeacherNoOverlapCons (input : TimetableInput) (lv : LVDict) :
    List Cons :=
  input.teachers.flatMap (fun t =>
    let ivs := getTeacherIntervals input lv t.id
    if ivs.length > 1 then [Cons.noOverlap ivs] else [])

/-- Embeds `_add_class_no_overlap_constraint`. -/
def addClassNoOverlapCons (input : TimetableInput) (lv : LVDict) :
    List Cons :=
  input.classes.flatMap (fun c =>
    let ivs := getClassIntervals input lv c.id
    if ivs.length > 1 then [Cons.noOverlap ivs] else [])

/-- Embeds `_add_room_no_overlap_constraint`: per room, a reified room indicator
and an optional interval per compatible instance, then one no-overlap over
the room's optional intervals. -/
def addRoomNoOverlapCons (input : TimetableInput) (lv : LVDict) :
    List Cons :=
  input.rooms.enum.flatMap (fun p =>
    let pairs := lv.flatMap (fun kv =>
      match getLesson input kv.1 with
      | none => []
      | some l =>
        if !isRoomValidForLesson input p.2 l then []
        else
          kv.2.map (fun iv =>
            let b := "L" ++ kv.1 ++ "_I" ++ toString iv.instanceIdx
              ++ "_in_R" ++ p.2.id
            ([ Cons.lift (.geC b 0), Cons.lift (.leC b 1),
               Cons.impP b (.eqC iv.roomVar (p.1 : Int)),
               Cons.impN b (.neC iv.roomVar (p.1 : Int)) ],
             IntervalD.mk iv.startVar iv.duration iv.endVar
               (some (b, true)))))
    pairs.flatMap (fun q => q.1) ++
      (if (pairs.map (fun q => q.2)).length > 1 then
        [Cons.noOverlap (pairs.map (fun q => q.2))]
      else []))

/-- Embeds `_add_room_type_constraints`: when a required type is set, restrict the
room variable to rooms of that type; when no room has that type the source
moves on without posting anything (its comment claims this "will cause
infeasibility"). -/
def addRoomTypeCons (input : TimetableInput) (lv : LVDict) : List Cons :=
  input.lessons.flatMap (fun l =>
    match requiredRoomTypeOf input l with
    | none => []
    | some rt =>
      let valid := input.rooms.enum.filterMap (fun p =>
        if p.2.type == rt then some ((p.1 : Int)) else none)
      if valid.isEmpty then []
      else
        (dictGetD lv l.id []).map (fun iv =>
          Cons.lift (.memOf iv.roomVar valid)))

/-- Embeds `_add_teacher_availability_constraints` (the builder's own encoding with
an `overlaps` boolean forced to 0). -/
def addTeacherAvailabilityCons (input : TimetableInput) (lv : LVDict) :
    List Cons :=
  input.teachers.flatMap (fun t =>
    if t.availability.isEmpty then []
    else
      let ranges := unavailableRanges t.availability
      if ranges.isEmpty then []
      else
        input.lessons.flatMap (fun l =>
          if !(l.teacher_id == t.id) then []
          else
            (dictGetD lv l.id []).flatMap (fun iv =>
              ranges.flatMap (fun r =>
                let ov := "L" ++ l.id ++ "_I" ++ toString iv.instanceIdx
                  ++ "_overlaps_unavail_" ++ toString r.1
                let be := "temp_be_" ++ l.id ++ "_"
                  ++ toString iv.instanceIdx ++ "_" ++ toString r.1
                let af := "temp_as_" ++ l.id ++ "_"
                  ++ toString iv.instanceIdx ++ "_" ++ toString r.1
                [ Cons.lift (.geC ov 0), Cons.lift (.leC ov 1),
                  Cons.lift (.geC be 0), Cons.lift (.leC be 1),
                  Cons.lift (.geC af 0), Cons.lift (.leC af 1),
                  Cons.impP be (.ltC iv.startVar r.2),
                  Cons.impN be (.geC iv.startVar r.2),
                  Cons.impP af (.gtC iv.endVar r.1),
                  Cons.impN af (.leC iv.endVar r.1),
                  Cons.boolAndIf (ov, true) [(be, true), (af, true)],
                  Cons.boolOrIf (ov, false) [(be, false), (af, false)],
                  Cons.lift (.eqC ov 0) ]))))

/-- A reference to the integer quantity a penalty term charges: either a
model variable by name or a `NewConstant`. -/
inductive VRef where
  | var (name : String)
  | const (c : Int)
  deriving DecidableEq

/-- The realized value of a penalty quantity under a valuation. -/
def VRef.eval (σ : Valuation) : VRef → Int
  | .var n => σ n
  | .const c => c

/-- A registered soft-constraint penalty term (`PenaltyVar`). -/
structure PenaltyVar where
  name : String
  var : VRef
  weight : Int
  description : String
  deriving DecidableEq

/-- Concatenate per-item (constraints, penalties) contributions. -/
def combineCP (xs : List (List Cons × List PenaltyVar)) :
    List Cons × List PenaltyVar :=
  (xs.flatMap (fun q => q.1), xs.flatMap (fun q => q.2))

/-- Embeds `_add_lesson_spread_soft_constraint`: per pair of instances of a lesson,
a reified same-day boolean registered as a weight-10 penalty. -/
def pairsAfter : List α → List (α × α)
  | [] => []
  | x :: rest => rest.map (fun y => (x, y)) ++ pairsAfter rest

/-- The constraints and penalty terms of
`_add_lesson_spread_soft_constraint`. -/
def addLessonSpreadSoft (input : TimetableInput) (lv : LVDict) :
    List Cons × List PenaltyVar :=
  combineCP (input.lessons.flatMap (fun l =>
    let insts := dictGetD lv l.id []
    if insts.length ≤ 1 then []
    else
      (pairsAfter insts).map (fun pr =>
        let sd := "L" ++ l.id ++ "_I" ++ toString pr.1.instanceIdx ++ "_I"
          ++ toString pr.2.instanceIdx ++ "_same_day"
        ([ Cons.lift (.geC sd 0), Cons.lift (.leC sd 1),
           Cons.impP sd (.eqVV pr.1.dayVar pr.2.dayVar),
           Cons.impN sd (.neVV pr.1.dayVar pr.2.dayVar) ],
         [ PenaltyVar.mk
             ("same_day_" ++ l.id ++ "_" ++ toString pr.1.instanceIdx
               ++ "_" ++ toString pr.2.instanceIdx)
             (.var sd) 10
             ("Lesson " ++ l.id ++ " instances on same day") ]))))

/-- The constraints and penalty terms of
`_add_teacher_max_periods_soft_constraint` (weight 20; the excess variable
is only created when the structural maximum exceeds the limit). -/
def addTeacherMaxPeriodsSoft (input : TimetableInput) (lv : LVDict) :
    List Cons × List PenaltyVar :=
  combineCP (input.teachers.flatMap (fun t =>
    match t.max_periods_per_day with
    | none => []
    | some maxPd =>
      (List.range input.config.num_days).map (fun day =>
        let dayInds := (getTeacherLessons input t.id).flatMap (fun l =>
          (dictGetD lv l.id []).map (fun iv =>
            ("T" ++ t.id ++ "_L" ++ l.id ++ "_I" ++ toString iv.instanceIdx
              ++ "_day" ++ toString day, iv)))
        if dayInds.isEmpty then ([], [])
        else
          let indCons := dayInds.flatMap (fun q =>
            [ Cons.lift (.geC q.1 0), Cons.lift (.leC q.1 1),
              Cons.impP q.1 (.eqC q.2.dayVar (day : Int)),
              Cons.impN q.1 (.neC q.2.dayVar (day : Int)) ])
          let dc := "T" ++ t.id ++ "_day" ++ toString day ++ "_count"
          let base := indCons ++
            [ Cons.lift (.geC dc 0),
              Cons.lift (.leC dc (dayInds.length : Int)),
              Cons.lift (.eqSumOf dc (dayInds.map (fun q => q.1))) ]
          let maxExcess := max 0 ((dayInds.length : Int) - maxPd)
          if maxExcess > 0 then
            let ex := "T" ++ t.id ++ "_day" ++ toString day ++ "_excess"
            (base ++ [ Cons.lift (.geC ex 0), Cons.lift (.leC ex maxExcess),
                       Cons.lift (.maxSubC ex dc maxPd) ],
             [ PenaltyVar.mk
                 ("teacher_overload_" ++ t.id ++ "_day" ++ toString day)
                 (.var ex) 20
                 ("Teacher " ++ t.name ++ " overloaded on day "
                   ++ toString day) ])
          else (base, []))))

/-- All constraints posted by the builder's own `add_constraints`, in call
order, together with the penalty terms it registers. -/
def builderAddConstraints (input : TimetableInput) (lv : LVDict) :
    List Cons × List PenaltyVar :=
  let spread := addLessonSpreadSoft input lv
  let maxp := addTeacherMaxPeriodsSoft input lv
  (addValidTimeSlotsCons input lv
     ++ addTeacherNoOverlapCons input lv
     ++ addClassNoOverlapCons input lv
     ++ addRoomNoOverlapCons input lv
     ++ addRoomTypeCons input lv
     ++ addTeacherAvailabilityCons input lv
     ++ spread.1 ++ maxp.1,
   spread.2 ++ maxp.2)

-- ===========================================================================
-- Claim C1: a lesson whose admissible room set is empty
-- ===========================================================================

/-- A lesson demanding a gym although the input below has no gym. -/
def lessonGym : Lesson :=
  { id := "l1", teacher_id := "t1", class_id := "c1", subject_id := "s1",
    duration_minutes := 60, lessons_per_week := 1,
    room_requirement := some
      { room_type := some "gym", min_capacity := none,
        preferred_rooms := [], excluded_rooms := [],
        requires_equipment := [] } }

/-- A minimal input whose single room is a classroom, so `lessonGym` has an
empty admissible room set. -/
def inputGym : TimetableInput :=
  ⟨⟨5⟩,
   [⟨"t1", "T One", [], none, none, []⟩],
   [⟨"c1", "C One", none, []⟩],
   [⟨"s1", "S One", false, none⟩],
   [⟨"r1", "R One", "classroom", none, [], []⟩],
   [lessonGym],
   [⟨"p1", "P1", 540, 600, 0, false, false⟩]⟩

/-- A candidate solution placing the lesson in the classroom (room 0). -/
def sigmaGym : Valuation := fun n =>
  if n = "Ll1_I0_start" then 540
  else if n = "Ll1_I0_end" then 600
  else 0

/-- C1 (code bug): for `lessonGym` the admissible room set is empty, yet the
builder's `_add_room_type_constraints` posts nothing at all (despite its
comment claiming the empty set "will cause infeasibility"), so the full
constraint set of the builder's `add_constraints` accepts a solution that
assigns the lesson to room 0 whose type is `classroom`, not the required
`gym` — the build neither forces an unsatisfiable constraint nor aborts.
The modular rooms pipeline, in contrast, posts the impossible
`room == -1`. -/
theorem room_type_empty_admissible_silently_skipped :
    getValidRoomsForLesson inputGym lessonGym = [] ∧
    addRoomTypeCons inputGym (createVariablesDict inputGym) = [] ∧
    satisfies sigmaGym (createVariablesCons inputGym
      ++ (builderAddConstraints inputGym (createVariablesDict inputGym)).1)
      = true ∧
    sigmaGym (roomNm "l1" 0) = 0 ∧
    (inputGym.rooms[0]?).map (fun r => r.type) = some "classroom" ∧
    requiredRoomTypeOf inputGym lessonGym = some "gym" ∧
    addRoomAssignmentConstraints inputGym (createVariablesDict inputGym)
      = [Cons.lift (.eqC (roomNm "l1" 0) (-1))] := by
  decide

-- ===========================================================================
-- Daily/weekly limit encoder (solver/constraints/daily_limits.py)
-- ===========================================================================

/-- Embeds `_get_teacher_instances`: all instance records of a teacher's lessons. -/
def teacherInstances (input : TimetableInput) (lv : LVDict) (tid : String) :
    List InstVars :=
  input.lessons.flatMap (fun l =>
    if l.teacher_id == tid then dictGetD lv l.id [] else [])

/-- Embeds `_get_class_instances`. -/
def classInstances (input : TimetableInput) (lv : LVDict) (cid : String) :
    List InstVars :=
  input.lessons.flatMap (fun l =>
    if l.class_id == cid then dictGetD lv l.id [] else [])

/-- One day of `add_teacher_max_periods_per_day`: indicators, the day count,
the overflow variable, and the penalty registered only when the structural
maximum exceeds the limit. -/
def teacherMaxDayBlock (input : TimetableInput) (lv : LVDict) (t : Teacher)
    (maxPd : Int) (weight : Int) (day : Nat) :
    List Cons × List PenaltyVar :=
  let dayInds := (teacherInstances input lv t.id).map (fun iv =>
    ("T" ++ t.id ++ "_L" ++ iv.lesson_id ++ "_I" ++ toString iv.instanceIdx
      ++ "_day" ++ toString day, iv))
  if dayInds.isEmpty then ([], [])
  else
    let indCons := dayInds.flatMap (fun q =>
      [ Cons.lift (.geC q.1 0), Cons.lift (.leC q.1 1),
        Cons.impP q.1 (.eqC q.2.dayVar (day : Int)),
        Cons.impN q.1 (.neC q.2.dayVar (day : Int)) ])
    let dc := "T" ++ t.id ++ "_day" ++ toString day ++ "_count"
    let ov := "T" ++ t.id ++ "_day" ++ toString day ++ "_overflow"
    (indCons ++
      [ Cons.lift (.geC dc 0), Cons.lift (.leC dc (dayInds.length : Int)),
        Cons.lift (.eqSumOf dc (dayInds.map (fun q => q.1))),
        Cons.lift (.geC ov 0),
        Cons.lift (.leC ov (max 0 ((dayInds.length : Int) - maxPd))),
        Cons.lift (.maxSubC ov dc maxPd) ],
     if (dayInds.length : Int) > maxPd then
       [ PenaltyVar.mk ("teacher_overload_" ++ t.id ++ "_day" ++ toString day)
           (.var ov) weight
           ("Teacher " ++ t.name ++ " exceeds " ++ toString maxPd
             ++ " periods on day " ++ toString day) ]
     else [])

/-- Embeds `add_teacher_max_periods_per_day`. -/
def addTeacherMaxPerDayDL (input : TimetableInput) (lv : LVDict)
    (defaultMax : Option Int) (weight : Int) :
    List Cons × List PenaltyVar :=
  combineCP (input.teachers.flatMap (fun t =>
    match (match t.max_periods_per_day with
           | some m => some m
           | none => defaultMax) with
    | none => []
    | some maxPd =>
      if (teacherInstances input lv t.id).isEmpty then []
      else
        (List.range input.config.num_days).map
          (teacherMaxDayBlock input lv t maxPd weight)))

/-- One day of `add_class_max_periods_per_day`. -/
def classMaxDayBlock (input : TimetableInput) (lv : LVDict)
    (c : StudentClass) (maxPd : Int) (weight : Int) (day : Nat) :
    List Cons × List PenaltyVar :=
  let dayInds := (classInstances input lv c.id).map (fun iv =>
    ("C" ++ c.id ++ "_L" ++ iv.lesson_id ++ "_I" ++ toString iv.instanceIdx
      ++ "_day" ++ toString day, iv))
  if dayInds.isEmpty then ([], [])
  else
    let indCons := dayInds.flatMap (fun q =>
      [ Cons.lift (.geC q.1 0), Cons.lift (.leC q.1 1),
        Cons.impP q.1 (.eqC q.2.dayVar (day : Int)),
        Cons.impN q.1 (.neC q.2.dayVar (day : Int)) ])
    let dc := "C" ++ c.id ++ "_day" ++ toString day ++ "_count"
    let ov := "C" ++ c.id ++ "_day" ++ toString day ++ "_overflow"
    (indCons ++
      [ Cons.lift (.geC dc 0), Cons.lift (.leC dc (dayInds.length : Int)),
        Cons.lift (.eqSumOf dc (dayInds.map (fun q => q.1))),
        Cons.lift (.geC ov 0),
        Cons.lift (.leC ov (max 0 ((dayInds.length : Int) - maxPd))),
        Cons.lift (.maxSubC ov dc maxPd) ],
     if (dayInds.length : Int) > maxPd then
       [ PenaltyVar.mk ("class_overload_" ++ c.id ++ "_day" ++ toString day)
           (.var ov) weight
           ("Class " ++ c.name ++ " exceeds " ++ toString maxPd
             ++ " periods on day " ++ toString day) ]
     else [])

/-- Embeds `add_class_max_periods_per_day` (classes carry no own limit, only the
default applies). -/
def addClassMaxPerDayDL (input : TimetableInput) (lv : LVDict)
    (defaultMax : Option Int) (weight : Int) :
    List Cons × List PenaltyVar :=
  combineCP (input.classes.flatMap (fun c =>
    match defaultMax with
    | none => []
    | some maxPd =>
      if (classInstances input lv c.id).isEmpty then []
      else
        (List.range input.config.num_days).map
          (classMaxDayBlock input lv c maxPd weight)))

/-- Embeds `add_teacher_max_periods_per_week`: the total instance count is fixed at
build time, so an excess over the weekly cap is registered directly as a
constant-valued penalty term; no term is created when the total does not
exceed the cap. -/
def addTeacherMaxPerWeekDL (input : TimetableInput) (lv : LVDict)
    (weight : Int) : List PenaltyVar :=
  input.teachers.flatMap (fun t =>
    match t.max_periods_per_week with
    | none => []
    | some m =>
      let total := (teacherInstances input lv t.id).length
      if (total : Int) ≤ m then []
      else if (total : Int) - m > 0 then
        [ PenaltyVar.mk ("teacher_weekly_overload_" ++ t.id)
            (.const ((total : Int) - m)) weight
            ("Teacher " ++ t.name ++ " has " ++ toString total
              ++ " periods, max is " ++ toString m) ]
      else [])

/-- One day-count block of `add_balanced_daily_workload` (names carry the
`_bal` suffix). -/
def balancedDayCountBlock (input : TimetableInput) (lv : LVDict)
    (t : Teacher) (day : Nat) : List Cons :=
  let insts := teacherInstances input lv t.id
  let dayInds := insts.map (fun iv =>
    ("T" ++ t.id ++ "_L" ++ iv.lesson_id ++ "_I" ++ toString iv.instanceIdx
      ++ "_day" ++ toString day ++ "_bal", iv))
  dayInds.flatMap (fun q =>
    [ Cons.lift (.geC q.1 0), Cons.lift (.leC q.1 1),
      Cons.impP q.1 (.eqC q.2.dayVar (day : Int)),
      Cons.impN q.1 (.neC q.2.dayVar (day : Int)) ]) ++
  [ Cons.lift (.geC ("T" ++ t.id ++ "_day" ++ toString day ++ "_count_bal")
      0),
    Cons.lift (.leC ("T" ++ t.id ++ "_day" ++ toString day ++ "_count_bal")
      (insts.length : Int)),
    Cons.lift (.eqSumOf
      ("T" ++ t.id ++ "_day" ++ toString day ++ "_count_bal")
      (dayInds.map (fun q => q.1))) ]

/-- One deviation block of `add_balanced_daily_workload`. -/
def balancedDeviationBlock (input : TimetableInput) (lv : LVDict)
    (t : Teacher) (target : Int) (weight : Int) (day : Nat) :
    List Cons × List PenaltyVar :=
  let n := (teacherInstances input lv t.id).length
  let dc := "T" ++ t.id ++ "_day" ++ toString day ++ "_count_bal"
  let ab := "T" ++ t.id ++ "_day" ++ toString day ++ "_above"
  let bl := "T" ++ t.id ++ "_day" ++ toString day ++ "_below"
  let dv := "T" ++ t.id ++ "_day" ++ toString day ++ "_deviation"
  ([ Cons.lift (.geC ab 0), Cons.lift (.leC ab (n : Int)),
     Cons.lift (.maxSubC ab dc target),
     Cons.lift (.geC bl 0), Cons.lift (.leC bl target),
     Cons.lift (.maxCSub bl target dc),
     Cons.lift (.geC dv 0), Cons.lift (.leC dv (n : Int)),
     Cons.lift (.eqSumOf dv [ab, bl]) ],
   [ PenaltyVar.mk ("workload_imbalance_" ++ t.id ++ "_day" ++ toString day)
       (.var dv) weight
       ("Teacher " ++ t.name ++ " workload deviation on day "
         ++ toString day) ])

/-- Embeds `add_balanced_daily_workload`. -/
def addBalancedDailyWorkloadDL (input : TimetableInput) (lv : LVDict)
    (weight : Int) : List Cons × List PenaltyVar :=
  combineCP (input.teachers.map (fun t =>
    let insts := teacherInstances input lv t.id
    if insts.length ≤ 1 then ([], [])
    else
      let target := (insts.length : Int) / (input.config.num_days : Int)
      if target = 0 then ([], [])
      else
        let counts := (List.range input.config.num_days).flatMap
          (balancedDayCountBlock input lv t)
        let devs := combineCP ((List.range input.config.num_days).map
          (balancedDeviationBlock input lv t target weight))
        (counts ++ devs.1, devs.2)))

/-- One day block of `add_minimum_lessons_per_day` (names carry the `_min`
suffix). -/
def minLessonsDayBlock (input : TimetableInput) (lv : LVDict) (t : Teacher)
    (minLessons : Int) (weight : Int) (day : Nat) :
    List Cons × List PenaltyVar :=
  let insts := teacherInstances input lv t.id
  let dayInds := insts.map (fun iv =>
    ("T" ++ t.id ++ "_L" ++ iv.lesson_id ++ "_I" ++ toString iv.instanceIdx
      ++ "_day" ++ toString day ++ "_min", iv))
  if dayInds.isEmpty then ([], [])
  else
    let dc := "T" ++ t.id ++ "_day" ++ toString day ++ "_count_min"
    let hl := "T" ++ t.id ++ "_day" ++ toString day ++ "_has_lessons"
    let sh := "T" ++ t.id ++ "_day" ++ toString day ++ "_shortfall"
    let ts := "T" ++ t.id ++ "_day" ++ toString day ++ "_temp_shortfall"
    (dayInds.flatMap (fun q =>
      [ Cons.lift (.geC q.1 0), Cons.lift (.leC q.1 1),
        Cons.impP q.1 (.eqC q.2.dayVar (day : Int)),
        Cons.impN q.1 (.neC q.2.dayVar (day : Int)) ]) ++
      [ Cons.lift (.geC dc 0), Cons.lift (.leC dc (dayInds.length : Int)),
        Cons.lift (.eqSumOf dc (dayInds.map (fun q => q.1))),
        Cons.lift (.geC hl 0), Cons.lift (.leC hl 1),
        Cons.impP hl (.geC dc 1),
        Cons.impN hl (.eqC dc 0),
        Cons.lift (.geC sh 0), Cons.lift (.leC sh (minLessons - 1)),
        Cons.lift (.geC ts 0), Cons.lift (.leC ts minLessons),
        Cons.lift (.maxCSub ts minLessons dc),
        Cons.impP hl (.eqVV sh ts),
        Cons.impN hl (.eqC sh 0) ],
     [ PenaltyVar.mk ("fragmentation_" ++ t.id ++ "_day" ++ toString day)
         (.var sh) weight
         ("Teacher " ++ t.name ++ " has few lessons on day "
           ++ toString day) ])

/-- Embeds `add_minimum_lessons_per_day`. -/
def addMinimumLessonsPerDayDL (input : TimetableInput) (lv : LVDict)
    (minLessons : Int) (weight : Int) : List Cons × List PenaltyVar :=
  combineCP (input.teachers.flatMap (fun t =>
    if (teacherInstances input lv t.id).length < minLessons.toNat then []
    else
      (List.range input.config.num_days).map
        (minLessonsDayBlock input lv t minLessons weight)))

/-- Embeds `add_all_daily_limit_constraints`: the combined pipeline, calling the
weekly limit encoder with weight 50 and the minimum-lessons encoder with
`min_lessons = 2`. -/
def addAllDailyLimitConstraints (input : TimetableInput) (lv : LVDict)
    (teacherMaxWeight : Int) (classMaxDefault : Option Int)
    (classMaxWeight : Int) (balanceWeight : Int)
    (fragmentationWeight : Int) : List Cons × List PenaltyVar :=
  let a := addTeacherMaxPerDayDL input lv none teacherMaxWeight
  let b := match classMaxDefault with
           | some d => addClassMaxPerDayDL input lv (some d) classMaxWeight
           | none => ([], [])
  let c := addTeacherMaxPerWeekDL input lv 50
  let d := addBalancedDailyWorkloadDL input lv balanceWeight
  let e := addMinimumLessonsPerDayDL input lv 2 fragmentationWeight
  (a.1 ++ b.1 ++ d.1 ++ e.1, a.2 ++ b.2 ++ c ++ d.2 ++ e.2)

theorem string_append_cancel {s a b : String} (h : s ++ a = s ++ b) :
    a = b := by
  have hd := congrArg String.data h
  rw [String.data_append, String.data_append] at hd
  exact String.ext (List.append_cancel_left hd)

/-- C8: the weekly-limit encoder treats the excess as a compile-time
constant.  If a teacher's total instance count is at most the weekly cap,
no weekly penalty term is created for that teacher; if it exceeds the cap,
the registered term carries a constant value `total - max` (no derived
decision variable), and the combined daily-limit pipeline registers it with
weight 50. -/
theorem teacher_weekly_limit_constant_penalty
    (input : TimetableInput) (lv : LVDict) (w : Int)
    (tw : Int) (cd : Option Int) (cw bw fw : Int)
    (hnd : (input.teachers.map (fun t => t.id)).Nodup)
    (t : Teacher) (ht : t ∈ input.teachers) (m : Int)
    (hm : t.max_periods_per_week = some m) :
    (((teacherInstances input lv t.id).length : Int) ≤ m →
      ∀ p ∈ addTeacherMaxPerWeekDL input lv w,
        p.name ≠ "teacher_weekly_overload_" ++ t.id) ∧
    (m < ((teacherInstances input lv t.id).length : Int) →
      PenaltyVar.mk ("teacher_weekly_overload_" ++ t.id)
        (.const (((teacherInstances input lv t.id).length : Int) - m)) w
        ("Teacher " ++ t.name ++ " has "
          ++ toString (teacherInstances input lv t.id).length
          ++ " periods, max is " ++ toString m)
        ∈ addTeacherMaxPerWeekDL input lv w ∧
      PenaltyVar.mk ("teacher_weekly_overload_" ++ t.id)
        (.const (((teacherInstances input lv t.id).length : Int) - m)) 50
        ("Teacher " ++ t.name ++ " has "
          ++ toString (teacherInstances input lv t.id).length
          ++ " periods, max is " ++ toString m)
        ∈ (addAllDailyLimitConstraints input lv tw cd cw bw fw).2) := by
  constructor
  · intro hle p hp hname
    rcases List.mem_flatMap.mp hp with ⟨u, hu, hpu⟩
    revert hpu
    cases hmu : u.max_periods_per_week with
    | none => simp
    | some mu =>
      simp only []
      by_cases h1 : ((teacherInstances input lv u.id).length : Int) ≤ mu
      · simp [h1]
      · by_cases h2 : ((teacherInstances input lv u.id).length : Int) - mu > 0
        · simp only [if_neg h1, if_pos h2, List.mem_singleton]
          intro hpe
          have hn : p.name = "teacher_weekly_overload_" ++ u.id := by
            rw [hpe]
          rw [hname] at hn
          have hid : t.id = u.id := string_append_cancel hn
          have hut : u = t :=
            List.inj_on_of_nodup_map hnd hu ht hid.symm
          rw [hut, hm] at hmu
          cases hmu
          rw [hut] at h1
          exact h1 hle
        · simp [if_neg h1, h2]
  · intro hgt
    have hmem : PenaltyVar.mk ("teacher_weekly_overload_" ++ t.id)
        (.const (((teacherInstances input lv t.id).length : Int) - m)) w
        ("Teacher " ++ t.name ++ " has "
          ++ toString (teacherInstances input lv t.id).length
          ++ " periods, max is " ++ toString m)
        ∈ addTeacherMaxPerWeekDL input lv w := by
      refine List.mem_flatMap.mpr ⟨t, ht, ?_⟩
      rw [hm]
      simp only [if_neg (not_le.mpr hgt), if_pos (by omega :
        ((teacherInstances input lv t.id).length : Int) - m > 0)]
      simp
    refine ⟨hmem, ?_⟩
    have hmem50 : PenaltyVar.mk ("teacher_weekly_overload_" ++ t.id)
        (.const (((teacherInstances input lv t.id).length : Int) - m)) 50
        ("Teacher " ++ t.name ++ " has "
          ++ toString (teacherInstances input lv t.id).length
          ++ " periods, max is " ++ toString m)
        ∈ addTeacherMaxPerWeekDL input lv 50 := by
      refine List.mem_flatMap.mpr ⟨t, ht, ?_⟩
      rw [hm]
      simp only [if_neg (not_le.mpr hgt), if_pos (by omega :
        ((teacherInstances input lv t.id).length : Int) - m > 0)]
      simp
    simp only [addAllDailyLimitConstraints]
    exact List.mem_append_left _ (List.mem_append_left _
      (List.mem_append_right _ hmem50))

-- ===========================================================================
-- Solve driver (TimetableModelBuilder.solve and extraction)
-- ===========================================================================

/-- The closed status domain the driver maps engine statuses onto. -/
inductive SolverStatus where
  | OPTIMAL
  | FEASIBLE
  | INFEASIBLE
  | MODEL_INVALID
  | UNKNOWN
  deriving DecidableEq

/-- One row of the decoded assignment list (`LessonAssignment`). -/
structure LessonAssignment where
  lesson_id : String
  instanceIdx : Nat
  day : Int
  start_minutes : Int
  end_minutes : Int
  room_id : String
  room_name : String
  teacher_id : String
  teacher_name : String
  class_id : String
  class_name : String
  subject_id : String
  subject_name : String
  period_id : Option String
  period_name : Option String
  deriving DecidableEq

/-- Decoding of one instance in `_extract_assignments`: solved week values
are read from the valuation, day-local minutes are the week values reduced
modulo 1440, and the room record is looked up by the solved index (an
accepted solution keeps that index inside the room list). -/
def mkAssignment (input : TimetableInput) (lid : String) (l : Lesson)
    (iv : InstVars) (σ : Valuation) : LessonAssignment :=
  let weekStart := σ iv.startVar
  let weekEnd := σ iv.endVar
  let roomIdx := σ iv.roomVar
  let day := σ iv.dayVar
  let dayStart := weekStart % minutesPerDay
  let dayEnd := weekEnd % minutesPerDay
  let periodHit := input.periods.find? (fun p =>
    p.day == day && p.start_minutes == dayStart)
  { lesson_id := lid
    instanceIdx := iv.instanceIdx
    day := day
    start_minutes := dayStart
    end_minutes := dayEnd
    room_id := (match input.rooms[roomIdx.toNat]? with
                | some r => r.id
                | none => "")
    room_name := (match input.rooms[roomIdx.toNat]? with
                  | some r => r.name
                  | none => "")
    teacher_id := l.teacher_id
    teacher_name := (match getTeacher input l.teacher_id with
                     | some t => t.name
                     | none => "Unknown")
    class_id := l.class_id
    class_name := (match getClass input l.class_id with
                   | some c => c.name
                   | none => "Unknown")
    subject_id := l.subject_id
    subject_name := (match getSubject input l.subject_id with
                     | some s => s.name
                     | none => "Unknown")
    period_id := periodHit.map (fun p => p.id)
    period_name := periodHit.map (fun p => p.name) }

/-- The sort key order of `_extract_assignments`: non-decreasing in the
lexicographic pair `(day, start_minutes)`. -/
def sortKeyLe (a b : LessonAssignment) : Bool :=
  decide (a.day < b.day) ||
    (a.day == b.day && decide (a.start_minutes ≤ b.start_minutes))

/-- Embeds `_extract_assignments`: one decoded row per stored instance of every
lesson found in the input, sorted by `(day, start_minutes)`. -/
def extractAssignments (input : TimetableInput) (lv : LVDict)
    (σ : Valuation) : List LessonAssignment :=
  (lv.flatMap (fun kv =>
    match getLesson input kv.1 with
    | none => []
    | some l => kv.2.map (fun iv => mkAssignment input kv.1 l iv σ))).mergeSort
    sortKeyLe

/-- Embeds `_extract_penalties`: a dict written in penalty order, keeping only
terms whose realized value is positive, weighted. -/
def extractPenalties (σ : Valuation) (pvs : List PenaltyVar) :
    List (String × Int) :=
  pvs.foldl (fun m p =>
    let value := p.var.eval σ
    if value > 0 then dictUpsert p.name (value * p.weight) m else m) []

/-- Lookup in the penalties dict. -/
def penLookup (m : List (String × Int)) (k : String) : Option Int :=
  (m.find? (fun q => q.1 == k)).map (fun q => q.2)

/-- The `SolverSolution` record the driver returns. -/
structure SolverSolution where
  status : SolverStatus
  assignments : List LessonAssignment
  solve_time_ms : Int
  objective_value : Option Int
  penalties : List (String × Int)
  deriving DecidableEq

/-- The tail of `solve`: map the engine status, then extract assignments and
penalties only on `OPTIMAL` or `FEASIBLE`, otherwise return them empty;
the objective value is reported only on `OPTIMAL`. -/
def solveExtract (input : TimetableInput) (lv : LVDict)
    (pvs : List PenaltyVar) (status : SolverStatus) (σ : Valuation)
    (wallMs objVal : Int) : SolverSolution :=
  { status := status
    assignments :=
      if status = SolverStatus.OPTIMAL ∨ status = SolverStatus.FEASIBLE
      then extractAssignments input lv σ else []
    solve_time_ms := wallMs
    objective_value :=
      if status = SolverStatus.OPTIMAL then some objVal else none
    penalties :=
      if status = SolverStatus.OPTIMAL ∨ status = SolverStatus.FEASIBLE
      then extractPenalties σ pvs else [] }

/-- C6: on any mapped status other than `OPTIMAL` and `FEASIBLE` (that is,
`INFEASIBLE`, `MODEL_INVALID` or `UNKNOWN`), the solution returned by
`solve` has an empty assignment list and an empty penalties map; the
extraction functions feed the result only on the two feasible statuses. -/
theorem infeasible_status_returns_empty
    (input : TimetableInput) (lv : LVDict) (pvs : List PenaltyVar)
    (status : SolverStatus) (σ : Valuation) (wallMs objVal : Int)
    (h1 : status ≠ SolverStatus.OPTIMAL)
    (h2 : status ≠ SolverStatus.FEASIBLE) :
    (solveExtract input lv pvs status σ wallMs objVal).assignments = [] ∧
    (solveExtract input lv pvs status σ wallMs objVal).penalties = [] ∧
    (solveExtract input lv pvs status σ wallMs objVal).objective_value
      = none := by
  have hor : ¬ (status = SolverStatus.OPTIMAL
      ∨ status = SolverStatus.FEASIBLE) := by
    rintro (h | h)
    · exact h1 h
    · exact h2 h
  simp [solveExtract, if_neg hor, if_neg h1]

-- ===========================================================================
-- Claim C7: the penalties map keeps only positive realized values
-- ===========================================================================

theorem find?_eq_none_of_all {p : α → Bool} {xs : List α}
    (h : ∀ x ∈ xs, p x = false) : xs.find? p = none :=
  List.find?_eq_none.mpr (fun x hx => by simp [h x hx])

theorem extractPenalties_go (σ : Valuation) :
    ∀ (pvs : List PenaltyVar) (acc : List (String × Int)),
    (pvs.map (fun p => p.name)).Nodup →
    (∀ p ∈ pvs, ∀ q ∈ acc, q.1 ≠ p.name) →
    pvs.foldl (fun m p =>
      let value := p.var.eval σ
      if value > 0 then dictUpsert p.name (value * p.weight) m else m) acc
    = acc ++ (pvs.filter (fun p => 0 < p.var.eval σ)).map
        (fun p => (p.name, p.var.eval σ * p.weight)) := by
  intro pvs
  induction pvs with
  | nil => intro acc _ _; simp
  | cons hd tl ih =>
    intro acc hnd hfr
    simp only [List.map_cons, List.nodup_cons] at hnd
    by_cases hpos : hd.var.eval σ > 0
    · simp only [List.foldl_cons, if_pos hpos]
      rw [dictUpsert_append_of_fresh hd.name _ acc
        (fun q hq => hfr hd (by simp) q hq)]
      rw [ih (acc ++ [(hd.name, hd.var.eval σ * hd.weight)]) hnd.2]
      · simp only [List.filter_cons, decide_eq_true_eq, if_pos hpos,
          List.map_cons, List.append_assoc, List.singleton_append]
      · intro p hp q hq
        rcases List.mem_append.mp hq with h | h
        · exact hfr p (List.mem_cons_of_mem _ hp) q h
        · simp only [List.mem_singleton] at h
          subst h
          intro he
          have he' : hd.name = p.name := he
          exact hnd.1 (by rw [he']; exact List.mem_map_of_mem _ hp)
    · simp only [List.foldl_cons, if_neg hpos]
      rw [ih acc hnd.2 (fun p hp q hq =>
        hfr p (List.mem_cons_of_mem _ hp) q hq)]
      simp only [List.filter_cons, decide_eq_true_eq, if_neg hpos]

theorem find?_map_key {β : Type} (keyOf : PenaltyVar → String)
    (g : PenaltyVar → β) :
    ∀ (xs : List PenaltyVar) (p : PenaltyVar),
    (xs.map keyOf).Nodup → p ∈ xs →
    (xs.map (fun x => (keyOf x, g x))).find?
      (fun q => q.1 == keyOf p) = some (keyOf p, g p) := by
  intro xs
  induction xs with
  | nil => intro p _ hp; cases hp
  | cons hd tl ih =>
    intro p hnd hp
    simp only [List.map_cons, List.nodup_cons] at hnd
    rcases List.mem_cons.mp hp with h | h
    · subst h
      simp [List.find?]
    · have hne : (keyOf hd == keyOf p) = false := by
        simp only [beq_eq_false_iff_ne, ne_eq]
        intro he
        exact hnd.1 (by rw [he]; exact List.mem_map_of_mem _ h)
      simp only [List.map_cons, List.find?, hne]
      exact ih p hnd.2 h

/-- C7 counterexample: a registered penalty term whose realized value is
zero gets no entry in the penalties map (the claim would give it the entry
`0`): here the single registered term vanishes from the extraction. -/
theorem penalties_zero_term_dropped :
    extractPenalties (fun _ => 0)
        [PenaltyVar.mk "p" (.var "x") 2 "d"] = [] ∧
    penLookup (extractPenalties (fun _ => 0)
        [PenaltyVar.mk "p" (.var "x") 2 "d"]) "p" = none := by
  constructor
  · rfl
  · rfl

/-- C7 amended: on a feasible solve the penalties map contains an entry for
every registered penalty term whose realized value is positive, mapping
the term's name to that value times the term's weight; terms realizing a
non-positive value are omitted (given distinct term names). -/
theorem penalties_positive_terms_weighted
    (σ : Valuation) (pvs : List PenaltyVar)
    (hnd : (pvs.map (fun p => p.name)).Nodup)
    (p : PenaltyVar) (hp : p ∈ pvs) :
    (0 < p.var.eval σ →
      penLookup (extractPenalties σ pvs) p.name
        = some (p.var.eval σ * p.weight)) ∧
    (p.var.eval σ ≤ 0 →
      penLookup (extractPenalties σ pvs) p.name = none) := by
  have hrw : extractPenalties σ pvs
      = (pvs.filter (fun q => 0 < q.var.eval σ)).map
          (fun q => (q.name, q.var.eval σ * q.weight)) := by
    simpa using extractPenalties_go σ pvs [] hnd (by simp)
  have hsub : ((pvs.filter (fun q => 0 < q.var.eval σ)).map
      (fun q => q.name)).Nodup :=
    ((List.filter_sublist pvs).map (fun q => q.name)).nodup hnd
  constructor
  · intro hpos
    rw [hrw]
    unfold penLookup
    rw [find?_map_key (fun q => q.name) (fun q => q.var.eval σ * q.weight)
      (pvs.filter (fun q => 0 < q.var.eval σ)) p hsub
      (List.mem_filter.mpr ⟨hp, by simpa using hpos⟩)]
    rfl
  · intro hnonpos
    rw [hrw]
    unfold penLookup
    rw [find?_eq_none_of_all]
    · rfl
    · intro q hq
      rcases List.mem_map.mp hq with ⟨r, hr, hre⟩
      rcases List.mem_filter.mp hr with ⟨hrm, hrpos⟩
      simp only [← hre, beq_eq_false_iff_ne, ne_eq]
      intro he
      have hrp : r = p := List.inj_on_of_nodup_map hnd hrm hp he
      rw [hrp] at hrpos
      simp only [decide_eq_true_eq] at hrpos
      omega

-- ===========================================================================
-- Claim C10: completeness and order of the extracted assignment list
-- ===========================================================================

theorem sortKeyLe_iff (a b : LessonAssignment) :
    sortKeyLe a b = true ↔
      (a.day < b.day ∨ (a.day = b.day ∧ a.start_minutes ≤ b.start_minutes)) := by
  simp [sortKeyLe, Bool.or_eq_true, Bool.and_eq_true, decide_eq_true_eq,
    beq_iff_eq]

theorem sortKeyLe_trans (a b c : LessonAssignment)
    (hab : sortKeyLe a b = true) (hbc : sortKeyLe b c = true) :
    sortKeyLe a c = true := by
  rw [sortKeyLe_iff] at hab hbc ⊢
  omega

theorem sortKeyLe_total (a b : LessonAssignment) :
    (sortKeyLe a b || sortKeyLe b a) = true := by
  rw [Bool.or_eq_true, sortKeyLe_iff, sortKeyLe_iff]
  omega

theorem length_filter_beq_range {i : Nat} :
    ∀ {n : Nat}, i < n →
    ((List.range n).filter (fun j => j == i)).length = 1 := by
  intro n
  induction n with
  | zero => intro h; cases h
  | succ m ih =>
    intro hi
    rw [List.range_succ, List.filter_append, List.length_append]
    by_cases him : i < m
    · rw [ih him]
      have : (m == i) = false := by
        simp only [beq_eq_false_iff_ne, ne_eq]
        omega
      simp [List.filter, this]
    · have hieq : i = m := by omega
      have hz : (List.range m).filter (fun j => j == i) = [] := by
        apply List.filter_eq_nil_iff.mpr
        intro j hj
        have := List.mem_range.mp hj
        simp only [beq_iff_eq]
        omega
      rw [hz]
      simp [List.filter, hieq]

theorem length_filter_key_eq_one {α : Type} (f : α → String) :
    ∀ (xs : List α) (a : α), (xs.map f).Nodup → a ∈ xs →
    (xs.filter (fun x => f x == f a)).length = 1 := by
  intro xs
  induction xs with
  | nil => intro a _ ha; cases ha
  | cons hd tl ih =>
    intro a hnd ha
    simp only [List.map_cons, List.nodup_cons] at hnd
    by_cases hfe : f hd = f a
    · have hz : tl.filter (fun x => f x == f a) = [] := by
        apply List.filter_eq_nil_iff.mpr
        intro x hx
        simp only [beq_iff_eq]
        intro he
        exact hnd.1 (by rw [hfe, ← he]; exact List.mem_map_of_mem _ hx)
      simp [List.filter_cons, hfe, hz]
    · have hat : a ∈ tl := by
        rcases List.mem_cons.mp ha with h | h
        · exact absurd (by rw [h]) hfe
        · exact h
      have : (f hd == f a) = false := by
        simp [beq_eq_false_iff_ne, hfe]
      simp only [List.filter_cons, this, Bool.false_eq_true, if_false]
      exact ih a hnd.2 hat

theorem head_contrib_self (input : TimetableInput) (σ : Valuation)
    (l : Lesson) (i : Nat) (hi : i < l.lessons_per_week) :
    (((instVarsFor l).map (fun iv => mkAssignment input l.id l iv σ)).filter
      (fun a => a.lesson_id == l.id && a.instanceIdx == i)).length = 1 := by
  unfold instVarsFor
  rw [List.map_map, List.filter_map, List.length_map]
  have hfun : ((fun a => a.lesson_id == l.id && a.instanceIdx == i) ∘
      ((fun iv => mkAssignment input l.id l iv σ) ∘ mkInstVars l))
      = fun j => (l.id == l.id) && (j == i) := rfl
  rw [hfun]
  simp only [beq_self_eq_true, Bool.true_and]
  exact length_filter_beq_range hi

theorem head_contrib_other (input : TimetableInput) (σ : Valuation)
    (hd l : Lesson) (i : Nat) (hne : hd.id ≠ l.id) :
    (((instVarsFor hd).map
        (fun iv => mkAssignment input hd.id hd iv σ)).filter
      (fun a => a.lesson_id == l.id && a.instanceIdx == i)).length = 0 := by
  unfold instVarsFor
  rw [List.map_map, List.filter_map, List.length_map]
  have hfun : ((fun a => a.lesson_id == l.id && a.instanceIdx == i) ∘
      ((fun iv => mkAssignment input hd.id hd iv σ) ∘ mkInstVars hd))
      = fun j => (hd.id == l.id) && (j == i) := rfl
  rw [hfun]
  have hb : (hd.id == l.id) = false := by
    simp [beq_eq_false_iff_ne, hne]
  simp [hb]

theorem count_unsorted_filter
    (input : TimetableInput) (σ : Valuation) (l : Lesson) (i : Nat)
    (hi : i < l.lessons_per_week) (hgl : getLesson input l.id = some l) :
    ∀ (ls : List Lesson),
    (∀ la ∈ ls, getLesson input la.id = some la) →
    (List.filter (fun a => a.lesson_id == l.id && a.instanceIdx == i)
      ((ls.map (fun la : Lesson => (la.id, instVarsFor la))).flatMap
        (fun kv =>
          match getLesson input kv.1 with
          | none => []
          | some l2 =>
            kv.2.map (fun iv => mkAssignment input kv.1 l2 iv σ)))).length
    = (ls.filter (fun la => la.id == l.id)).length := by
  intro ls
  induction ls with
  | nil => intro _; simp
  | cons hd tl ih =>
    intro hall
    simp only [List.map_cons, List.flatMap_cons, List.filter_append,
      List.length_append]
    rw [ih (fun la hla => hall la (List.mem_cons_of_mem _ hla))]
    have hghd : getLesson input hd.id = some hd := hall hd (by simp)
    have hmatch : (match getLesson input (hd.id, instVarsFor hd).1 with
        | none => ([] : List LessonAssignment)
        | some l2 => (hd.id, instVarsFor hd).2.map
            (fun iv => mkAssignment input (hd.id, instVarsFor hd).1 l2 iv σ))
        = (instVarsFor hd).map
            (fun iv => mkAssignment input hd.id hd iv σ) := by
      simp only [hghd]
    rw [hmatch]
    by_cases hide : hd.id = l.id
    · have hdl : hd = l := by
        have h1 : getLesson input l.id = some hd := by rw [← hide]; exact hghd
        rw [hgl] at h1
        exact (Option.some_injective _ h1).symm
      subst hdl
      rw [head_contrib_self input σ hd i (by omega)]
      have hb : (hd.id == hd.id) = true := beq_self_eq_true hd.id
      simp only [List.filter_cons, hb, if_pos, List.length_cons]
      omega
    · rw [head_contrib_other input σ hd l i hide]
      have hb : (hd.id == l.id) = false := by
        simp [beq_eq_false_iff_ne, hide]
      simp only [List.filter_cons, hb, Bool.false_eq_true, if_false]
      omega

/-- C10: on a feasible solve the extracted assignment list contains exactly
one row per weekly instance of every lesson of the input, and the list is
sorted in non-decreasing order of the pair `(day, start_minutes)` where
`start_minutes` is the solved week start reduced modulo 1440. -/
theorem extract_assignments_complete_sorted
    (input : TimetableInput) (σ : Valuation)
    (hnd : (input.lessons.map (fun l => l.id)).Nodup) :
    (∀ l ∈ input.lessons, ∀ i < l.lessons_per_week,
      ((extractAssignments input (createVariablesDict input) σ).filter
        (fun a => a.lesson_id == l.id && a.instanceIdx == i)).length = 1) ∧
    List.Pairwise (fun a b => sortKeyLe a b = true)
      (extractAssignments input (createVariablesDict input) σ) := by
  constructor
  · intro l hl i hi
    unfold extractAssignments
    have hperm := List.mergeSort_perm
      ((createVariablesDict input).flatMap (fun kv =>
        match getLesson input kv.1 with
        | none => []
        | some l2 => kv.2.map (fun iv => mkAssignment input kv.1 l2 iv σ)))
      sortKeyLe
    rw [(hperm.filter
      (fun a => a.lesson_id == l.id && a.instanceIdx == i)).length_eq]
    rw [createVariablesDict_eq input hnd]
    rw [count_unsorted_filter input σ l i hi
      (getLesson_eq_of_nodup input hnd hl) input.lessons
      (fun la hla => getLesson_eq_of_nodup input hnd hla)]
    exact length_filter_key_eq_one (fun la => la.id) input.lessons l hnd hl
  · exact List.sorted_mergeSort sortKeyLe_trans sortKeyLe_total _

-- ===========================================================================
-- Builder phase state machine (create_variables / add_constraints /
-- set_objective) and claim C9
-- ===========================================================================

/-- The mutable state of a `TimetableModelBuilder`: the three phase flags,
the `lesson_vars` dict, the accumulated model constraints, the shared
penalty list and the (optional) minimization objective. -/
structure BuilderState where
  variables_created : Bool
  constraints_added : Bool
  objective_set : Bool
  lesson_vars : LVDict
  cons : List Cons
  penalty_vars : List PenaltyVar
  objective : Option (List (VRef × Int))
  deriving DecidableEq

/-- The state right after `__init__`. -/
def initState : BuilderState :=
  { variables_created := false, constraints_added := false,
    objective_set := false, lesson_vars := [], cons := [],
    penalty_vars := [], objective := none }

/-- Embeds `create_variables`: returns immediately when already run, otherwise
fills `lesson_vars` and posts the per-instance constraints. -/
def createVariablesPhase (input : TimetableInput) (s : BuilderState) :
    BuilderState :=
  if s.variables_created then s
  else
    { s with
      lesson_vars := input.lessons.foldl
        (fun d l => dictUpsert l.id (instVarsFor l) d) s.lesson_vars
      cons := s.cons ++ createVariablesCons input
      variables_created := true }

/-- Embeds `add_constraints`: raises before `create_variables`, returns immediately
when already run, otherwise posts every hard and soft constraint and
registers the soft penalties. -/
def addConstraintsPhase (input : TimetableInput) (s : BuilderState) :
    Except String BuilderState :=
  if !s.variables_created then
    .error "Must call create_variables() before add_constraints()"
  else if s.constraints_added then .ok s
  else
    .ok { s with
      cons := s.cons ++ (builderAddConstraints input s.lesson_vars).1
      penalty_vars := s.penalty_vars
        ++ (builderAddConstraints input s.lesson_vars).2
      constraints_added := true }

/-- Embeds `set_objective`: raises before `add_constraints`, returns immediately
when already run, otherwise minimizes the weighted penalty sum (setting no
objective when no penalty terms exist). -/
def setObjectivePhase (s : BuilderState) : Except String BuilderState :=
  if !s.constraints_added then
    .error "Must call add_constraints() before set_objective()"
  else if s.objective_set then .ok s
  else
    .ok { s with
      objective := if s.penalty_vars.isEmpty then s.objective
        else some (s.penalty_vars.map (fun p => (p.var, p.weight)))
      objective_set := true }

/-- C9: the three build phases are idempotent: rerunning
`create_variables` after it has run leaves the state unchanged, and
rerunning `add_constraints` or `set_objective` on any state they returned
successfully returns that state unchanged — no new variables, constraints,
penalty terms or objective. -/
theorem build_phases_idempotent (input : TimetableInput) :
    (∀ s : BuilderState,
      createVariablesPhase input (createVariablesPhase input s)
        = createVariablesPhase input s) ∧
    (∀ s s' : BuilderState, addConstraintsPhase input s = .ok s' →
      addConstraintsPhase input s' = .ok s') ∧
    (∀ s s' : BuilderState, setObjectivePhase s = .ok s' →
      setObjectivePhase s' = .ok s') := by
  refine ⟨?_, ?_, ?_⟩
  · intro s
    by_cases h : s.variables_created
    · simp [createVariablesPhase, h]
    · simp [createVariablesPhase, h]
  · intro s s' h
    unfold addConstraintsPhase at h ⊢
    by_cases h1 : s.variables_created
    · simp only [h1, Bool.not_true, Bool.false_eq_true, if_false] at h
      by_cases h2 : s.constraints_added
      · simp only [h2, if_true] at h
        cases h
        simp [h1, h2]
      · simp only [h2, Bool.false_eq_true, if_false, Except.ok.injEq] at h
        subst h
        simp [h1]
    · simp [h1] at h
  · intro s s' h
    unfold setObjectivePhase at h ⊢
    by_cases h1 : s.constraints_added
    · simp only [h1, Bool.not_true, Bool.false_eq_true, if_false] at h
      by_cases h2 : s.objective_set
      · simp only [h2, if_true] at h
        cases h
        simp [h1, h2]
      · simp only [h2, Bool.false_eq_true, if_false, Except.ok.injEq] at h
        subst h
        simp [h1]
    · simp [h1] at h

-- ===========================================================================
-- Concrete fixtures and witnesses
-- ===========================================================================

/-- Witness teacher: unavailable Monday 9:00-10:00, weekly cap 1. -/
def teacherW : Teacher :=
  ⟨"t1", "T One", [⟨0, 540, 600, false⟩], none, some 1, []⟩

/-- Witness room: a classroom unavailable Monday 9:00-10:00. -/
def roomW : Room :=
  ⟨"r1", "R One", "classroom", none, [⟨0, 540, 600, false⟩], []⟩

/-- Witness lesson: two weekly 60-minute instances, no room requirement. -/
def lessonW : Lesson := ⟨"l1", "t1", "c1", "s1", 60, 2, none⟩

/-- The Monday 9:00-10:00 unavailability window of the fixtures. -/
def availW : Availability := ⟨0, 540, 600, false⟩

/-- Witness input: one teacher, class, subject and room, one lesson with two
instances, and one schedulable 9:00-10:00 period each on Monday and
Tuesday. -/
def inputW : TimetableInput :=
  ⟨⟨5⟩,
   [teacherW],
   [⟨"c1", "C One", none, []⟩],
   [⟨"s1", "S One", false, none⟩],
   [roomW],
   [lessonW],
   [⟨"p1", "P1", 540, 600, 0, false, false⟩,
    ⟨"p2", "P2", 540, 600, 1, false, false⟩]⟩

/-- A feasible valuation for the variable model of `inputW`: instance 0 on
Monday 9:00, instance 1 on Tuesday 9:00, both in room 0. -/
def sigmaW : Valuation := fun n =>
  if n = "Ll1_I0_start" then 540
  else if n = "Ll1_I0_end" then 600
  else if n = "Ll1_I1_start" then 1980
  else if n = "Ll1_I1_end" then 2040
  else if n = "Ll1_I1_day" then 1
  else 0

/-- A valuation satisfying the teacher-unavailability constraints of
`inputW`: both instances start Tuesday 9:00, after the window. -/
def sigmaW4 : Valuation := fun n =>
  if n = "Ll1_I0_start" then 1980
  else if n = "Ll1_I0_end" then 2040
  else if n = "Ll1_I1_start" then 1980
  else if n = "Ll1_I1_end" then 2040
  else if n = "Tt1_unavail_540_Ll1_I0_starts_after" then 1
  else if n = "Tt1_unavail_540_Ll1_I1_starts_after" then 1
  else 0

/-- A valuation satisfying the room-unavailability constraints of `inputW`:
both instances sit in room 0 and start Tuesday 9:00. -/
def sigmaW5 : Valuation := fun n =>
  if n = "Ll1_I0_start" then 1980
  else if n = "Ll1_I0_end" then 2040
  else if n = "Ll1_I1_start" then 1980
  else if n = "Ll1_I1_end" then 2040
  else if n = "Ll1_I0_in_Rr1_unavail_540" then 1
  else if n = "Ll1_I1_in_Rr1_unavail_540" then 1
  else if n = "Rr1_unavail_540_Ll1_I0_starts_after" then 1
  else if n = "Rr1_unavail_540_Ll1_I1_starts_after" then 1
  else 0

/-- C3 witness: the variable-link theorem instantiated on `inputW` under
`sigmaW`. -/
theorem lesson_instance_variable_links_witness :
    sigmaW (endNm "l1" 0) = sigmaW (startNm "l1" 0) + 60 ∧
    0 ≤ sigmaW (startNm "l1" 0) := by
  have h := lesson_instance_variable_links inputW sigmaW lessonW 0
    (by decide) (by decide) (by decide)
  exact ⟨h.1, h.2.2.2.1⟩

/-- C2 witness: the valid-slot theorem instantiated on `inputW` under
`sigmaW`: the allowed-start set is non-empty and contains the solved
start. -/
theorem valid_time_slots_fail_loud_witness :
    allowedStartsFor inputW 60 ≠ [] ∧
    sigmaW (startNm "l1" 0) ∈ allowedStartsFor inputW 60 := by
  have h := (valid_time_slots_fail_loud inputW sigmaW lessonW 0
    (by decide) (by decide) (by decide)).2.2 (by decide)
  exact h

/-- C4 witness: the unavailability theorem instantiated on `inputW` under
`sigmaW4`. -/
theorem entity_unavailability_no_overlap_witness :
    sigmaW4 (endNm "l1" 0) ≤ 540 ∨ sigmaW4 (startNm "l1" 0) ≥ 600 := by
  have h := (entity_unavailability_no_overlap inputW
    (createVariablesDict inputW) sigmaW4).1 teacherW (by decide) availW
    (by decide) rfl lessonW (by decide) (mkInstVars lessonW 0) (by decide)
  exact h.2 (by decide)

/-- C5 witness: the gated room-unavailability theorem instantiated on
`inputW` under `sigmaW5`, where instance 0 is assigned to room 0. -/
theorem room_unavailability_gated_witness :
    sigmaW5 (endNm "l1" 0) ≤ 540 ∨ sigmaW5 (startNm "l1" 0) ≥ 600 := by
  have h := (room_unavailability_gated inputW (createVariablesDict inputW)
    sigmaW5 0 roomW (by decide) availW (by decide) rfl
    ("l1", instVarsFor lessonW) (by decide) lessonW (by decide)
    (mkInstVars lessonW 0) (by decide)).2 (by decide) (by decide)
  exact h

/-- C6 witness: the driver returns empty assignments and penalties on
`INFEASIBLE`. -/
theorem infeasible_status_returns_empty_witness :
    (solveExtract inputW (createVariablesDict inputW) []
      SolverStatus.INFEASIBLE sigmaW 0 0).assignments = [] ∧
    (solveExtract inputW (createVariablesDict inputW) []
      SolverStatus.INFEASIBLE sigmaW 0 0).penalties = [] := by
  have h := infeasible_status_returns_empty inputW
    (createVariablesDict inputW) [] SolverStatus.INFEASIBLE sigmaW 0 0
    (by decide) (by decide)
  exact ⟨h.1, h.2.1⟩

/-- A witness penalty term. -/
def pvW : PenaltyVar := ⟨"p", .var "x", 2, "d"⟩

/-- C7 witness: the amended penalties theorem instantiated on a term whose
realized value is 1 under weight 2. -/
theorem penalties_positive_terms_weighted_witness :
    penLookup (extractPenalties (fun _ => 1) [pvW]) "p" = some 2 := by
  have h := (penalties_positive_terms_weighted (fun _ => 1) [pvW]
    (by decide) pvW (by decide)).1 (by decide)
  exact h

/-- C8 witness: in `inputW` the teacher has 2 instances against a weekly cap
of 1, so the combined pipeline registers the constant excess 1 with
weight 50. -/
theorem teacher_weekly_limit_constant_penalty_witness :
    PenaltyVar.mk "teacher_weekly_overload_t1" (.const 1) 50
      "Teacher T One has 2 periods, max is 1"
      ∈ (addAllDailyLimitConstraints inputW (createVariablesDict inputW)
          20 none 15 5 10).2 := by
  have h := (teacher_weekly_limit_constant_penalty inputW
    (createVariablesDict inputW) 999 20 none 15 5 10 (by decide) teacherW
    (by decide) 1 rfl).2 (by decide)
  exact h.2

/-- The state of the witness builder after `create_variables`. -/
def stateW1 : BuilderState := createVariablesPhase inputW initState

/-- The state of the witness builder after `add_constraints`. -/
def stateW2 : BuilderState :=
  match addConstraintsPhase inputW stateW1 with
  | .ok s => s
  | .error _ => initState

/-- The state of the witness builder after `set_objective`. -/
def stateW3 : BuilderState :=
  match setObjectivePhase stateW2 with
  | .ok s => s
  | .error _ => initState

/-- C9 witness: rerunning each phase of the witness builder leaves its state
unchanged. -/
theorem build_phases_idempotent_witness :
    createVariablesPhase inputW (createVariablesPhase inputW initState)
      = createVariablesPhase inputW initState ∧
    addConstraintsPhase inputW stateW2 = Except.ok stateW2 ∧
    setObjectivePhase stateW3 = Except.ok stateW3 := by
  refine ⟨(build_phases_idempotent inputW).1 initState, ?_, ?_⟩
  · exact (build_phases_idempotent inputW).2.1 stateW1 stateW2 rfl
  · exact (build_phases_idempotent inputW).2.2 stateW2 stateW3 rfl

/-- C10 witness: on `inputW` under `sigmaW` the extracted list has exactly
one row for instance 0 of the lesson and is sorted. -/
theorem extract_assignments_complete_sorted_witness :
    ((extractAssignments inputW (createVariablesDict inputW) sigmaW).filter
      (fun a => a.lesson_id == "l1" && a.instanceIdx == 0)).length = 1 ∧
    List.Pairwise (fun a b => sortKeyLe a b = true)
      (extractAssignments inputW (createVariablesDict inputW) sigmaW) := by
  have h := extract_assignments_complete_sorted inputW sigmaW (by decide)
  exact ⟨h.1 lessonW (by decide) 0 (by decide), h.2⟩

end Timetable
